import Mathlib

/-!
# Particle pool, trail tubes, smooth normals and mesh merging

A shallow embedding of `src/main.cpp` (class `MyDriver`) and of the two functions it shares
with `src/a9/main.cpp` (`Add_Obj_Mesh_Object`, `Compute_Vertex_Normals`).

Conventions of the embedding.

* `float` values are exact rationals (`ℚ`); every decimal literal of the source is the rational
  it denotes (`1.6f` is `8/5`, `-9.8f` is `-49/5`).  No rounding is modelled.
* `int` values are `Int`, container sizes and loop counters are `Nat`.
* `std::vector` and `std::deque` are `List` (front of the deque = head of the list).
* The pseudo random generator `rng` is replaced by the values it returns: a burst count and one
  `Draw` per spawned particle.
* The C library functions `sqrt`, `cos`, `sin` are passed in as a `MathFns` record.
* The normal computation and the local frame of the trail tube are also given over an arbitrary
  linearly ordered field (`Vec3K`, `MathFnsK`), of which the rational versions are the instance
  at `ℚ`; statements about unit length are made there, where the square root can be exact.
* Pointers to mesh objects are replaced by the mesh objects themselves, stored in the lists
  `particle_meshes` and `trail_meshes` of the driver.  The render-only settings (materials,
  shaders, polygon and shading modes, `Set_Data_Refreshed`, `Initialize`, `setTime`) and the
  bookkeeping list `mesh_object_array` are not part of the model.
-/

namespace Sparks

/-! ## Vectors -/

/-- Three-component vector of the source (`Vector3`, an Eigen column vector of floats). -/
structure Vec3 where
  x : ℚ
  y : ℚ
  z : ℚ
  deriving DecidableEq, Repr

/-- Integer triple of the source (`Vector3i`): the three corner indices of a triangle. -/
structure Vec3i where
  i0 : Int
  i1 : Int
  i2 : Int
  deriving DecidableEq, Repr

/-- The functions of the C math library the source calls. -/
structure MathFns where
  sqrt : ℚ → ℚ
  cos : ℚ → ℚ
  sin : ℚ → ℚ

namespace Vec3

/-- The vector `Vector3(0, 0, 0)`. -/
def zero : Vec3 := ⟨0, 0, 0⟩

/-- Componentwise sum, `a + b`. -/
def add (a b : Vec3) : Vec3 := ⟨a.x + b.x, a.y + b.y, a.z + b.z⟩

/-- Componentwise difference, `a - b`. -/
def sub (a b : Vec3) : Vec3 := ⟨a.x - b.x, a.y - b.y, a.z - b.z⟩

/-- Product with a scalar, `a * s`. -/
def smul (a : Vec3) (s : ℚ) : Vec3 := ⟨a.x * s, a.y * s, a.z * s⟩

/-- Quotient by a scalar, `a / s`. -/
def sdiv (a : Vec3) (s : ℚ) : Vec3 := ⟨a.x / s, a.y / s, a.z / s⟩

/-- Inner product, `a.dot(b)`. -/
def dot (a b : Vec3) : ℚ := a.x * b.x + a.y * b.y + a.z * b.z

/-- Cross product, `a.cross(b)`. -/
def cross (a b : Vec3) : Vec3 :=
  ⟨a.y * b.z - a.z * b.y, a.z * b.x - a.x * b.z, a.x * b.y - a.y * b.x⟩

/-- Euclidean length, `a.norm()`: the square root of the squared length. -/
def norm (M : MathFns) (a : Vec3) : ℚ := M.sqrt (dot a a)

/-- Eigen `a.normalized()`: the vector divided by its length, and the vector itself when its
squared length is not positive. -/
def normalized (M : MathFns) (a : Vec3) : Vec3 :=
  if 0 < dot a a then sdiv a (M.sqrt (dot a a)) else a

end Vec3

/-! ## Meshes -/

/-- Geometry buffer `TriangleMesh<3>`: vertices, triangles and per-vertex normals. -/
structure TriangleMesh where
  vertices : List Vec3 := []
  elements : List Vec3i := []
  normals : List Vec3 := []
  deriving DecidableEq, Repr

/-- A 4x4 model matrix, row by row. -/
abbrev Matrix4f := List (List ℚ)

/-- The matrix `diag(scale, scale, scale, 1)` with translation column `t`, as written with
`operator<<` in `Initialize_Particles` and `Update_Particles`. -/
def scaleTranslate (scale : ℚ) (t : Vec3) : Matrix4f :=
  [[scale, 0, 0, t.x], [0, scale, 0, t.y], [0, 0, scale, t.z], [0, 0, 0, 1]]

/-- Renderable mesh object `OpenGLTriangleMesh`: its geometry, its visibility flag and its
model matrix. -/
structure OpenGLTriangleMesh where
  mesh : TriangleMesh := {}
  visible : Bool := true
  model_matrix : Matrix4f := scaleTranslate 1 Vec3.zero
  deriving DecidableEq, Repr

/-- Read `l[k]` for an `int` index `k`; an index outside the list reads the zero vector. -/
def vget (l : List Vec3) (k : Int) : Vec3 :=
  if 0 ≤ k then l.getD k.toNat Vec3.zero else Vec3.zero

/-- The statement `l[k] += f` for an `int` index `k`; an index outside the list changes
nothing. -/
def vaddAt (l : List Vec3) (k : Int) (f : Vec3) : List Vec3 :=
  if 0 ≤ k then
    match l[k.toNat]? with
    | some n => l.set k.toNat (Vec3.add n f)
    | none => l
  else l

/-- The un-normalized face normal `(v1 - v0) x (v2 - v0)` of triangle `tri`. -/
def faceNormal (vertices : List Vec3) (tri : Vec3i) : Vec3 :=
  let v0 := vget vertices tri.i0
  let v1 := vget vertices tri.i1
  let v2 := vget vertices tri.i2
  Vec3.cross (Vec3.sub v1 v0) (Vec3.sub v2 v0)

/-- One iteration of the accumulation loop of `Compute_Vertex_Normals`. -/
def accumulateTri (vertices : List Vec3) (normals : List Vec3) (tri : Vec3i) : List Vec3 :=
  let face_normal := faceNormal vertices tri
  vaddAt (vaddAt (vaddAt normals tri.i0 face_normal) tri.i1 face_normal) tri.i2 face_normal

/-- The accumulation loop of `Compute_Vertex_Normals`, started from all-zero normals. -/
def accumulateNormals (vertices : List Vec3) (triangles : List Vec3i) : List Vec3 :=
  triangles.foldl (accumulateTri vertices) (List.replicate vertices.length Vec3.zero)

/-- One iteration of the normalisation loop of `Compute_Vertex_Normals`. -/
def normalizeOrFallback (M : MathFns) (n : Vec3) : Vec3 :=
  let length := Vec3.norm M n
  if length > 1 / 1000000 then Vec3.sdiv n length else ⟨0, 1, 0⟩

/-- The normals computed by `Compute_Vertex_Normals` for the given vertices and triangles. -/
def vertexNormals (M : MathFns) (vertices : List Vec3) (triangles : List Vec3i) : List Vec3 :=
  (accumulateNormals vertices triangles).map (normalizeOrFallback M)

/-- Source function `MyDriver::Compute_Vertex_Normals`: store the smooth normals in the mesh object. -/
def Compute_Vertex_Normals (M : MathFns) (mesh_obj : OpenGLTriangleMesh) : OpenGLTriangleMesh :=
  { mesh_obj with
    mesh := { mesh_obj.mesh with
      normals := vertexNormals M mesh_obj.mesh.vertices mesh_obj.mesh.elements } }

/-- One iteration of the merge loop of `Add_Obj_Mesh_Object`: append submesh `m` to `merged`. -/
def mergeStep (merged : TriangleMesh) (m : TriangleMesh) : TriangleMesh :=
  let offset : Int := (merged.vertices.length : Int)
  { merged with
    vertices := merged.vertices ++ m.vertices,
    elements := merged.elements ++
      m.elements.map (fun f => Vec3i.mk (f.i0 + offset) (f.i1 + offset) (f.i2 + offset)) }

/-- The merge loop of `Add_Obj_Mesh_Object`, started from the empty mesh `merged`. -/
def mergeMeshes (meshes : List TriangleMesh) : TriangleMesh :=
  meshes.foldl mergeStep {}

/-- Source function `MyDriver::Add_Obj_Mesh_Object`, given the submeshes read from the OBJ file: merge them and
compute smooth normals. -/
def Add_Obj_Mesh_Object (M : MathFns) (meshes : List TriangleMesh) : OpenGLTriangleMesh :=
  Compute_Vertex_Normals M { mesh := mergeMeshes meshes }

/-! ## Particles and the driver state -/

/-- Physics record of one particle (`struct Particle`), with the values of its constructor. -/
structure Particle where
  position : Vec3 := ⟨0, 0, 0⟩
  velocity : Vec3 := ⟨0, 0, 0⟩
  lifetime : ℚ := 0
  max_lifetime : ℚ := 2
  active : Bool := false
  trail_positions : List Vec3 := []
  max_trail_length : Int := 15
  deriving DecidableEq, Repr

/-- The four values `Emit_Particle` draws from `rng`, in the order of the source:
`lifetime_dist`, `angle_dist`, `speed_dist`, `upward_dist`. -/
structure Draw where
  lifetime : ℚ
  angle : ℚ
  speed : ℚ
  upward_bias : ℚ
  deriving DecidableEq, Repr

/-- The value of the `M_PI` literal of the source. -/
def M_PI : ℚ := 3.14159265358979323846

/-- The ranges `[a, b)` of the four uniform distributions of `Emit_Particle`. -/
def Draw.inRange (r : Draw) : Prop :=
  (3 / 2 ≤ r.lifetime ∧ r.lifetime < 5 / 2) ∧
  (0 ≤ r.angle ∧ r.angle < 2 * M_PI) ∧
  (3 / 2 ≤ r.speed ∧ r.speed < 3) ∧
  (3 / 10 ≤ r.upward_bias ∧ r.upward_bias < 7 / 10)

/-- The particle system part of `class MyDriver`. -/
structure MyDriver where
  particles : List Particle := []
  particle_meshes : List OpenGLTriangleMesh := []
  trail_meshes : List OpenGLTriangleMesh := []
  emission_point : Vec3 := ⟨1 / 5, 13 / 10, 0⟩
  num_particles : Int := 100
  emission_rate : ℚ := 8 / 5
  last_emission_time : ℚ := 0
  deriving DecidableEq, Repr

/-- The constructor `MyDriver::MyDriver()`. -/
def MyDriver.new : MyDriver := {}

/-- Apply `f` to element `i` of `l`; an index outside the list changes nothing. -/
def modifyAt {α : Type} (f : α → α) (i : Nat) (l : List α) : List α :=
  match l[i]? with
  | some a => l.set i (f a)
  | none => l

/-- The body of the loop of `Initialize_Particles` for index `i`; `sphere` is the list of
submeshes read from `obj/sphere.obj`. -/
def initStep (M : MathFns) (sphere : List TriangleMesh) (d : MyDriver) (i : Nat) : MyDriver :=
  let scale : ℚ := 1 / 50
  let pm : OpenGLTriangleMesh :=
    { Add_Obj_Mesh_Object M sphere with
      model_matrix := scaleTranslate scale d.emission_point, visible := false }
  let tm : OpenGLTriangleMesh := { visible := false }
  { d with
    particles := modifyAt (fun p => { p with active := false }) i d.particles,
    particle_meshes := d.particle_meshes.set i pm,
    trail_meshes := d.trail_meshes.set i tm }

/-- Source function `MyDriver::Initialize_Particles`: size the three arrays to `num_particles` and set up every
slot as inactive and invisible. -/
def Initialize_Particles (M : MathFns) (sphere : List TriangleMesh) (d : MyDriver) : MyDriver :=
  let n := d.num_particles.toNat
  let d0 : MyDriver :=
    { d with
      particles := d.particles.take n ++ List.replicate (n - d.particles.length) {},
      particle_meshes :=
        d.particle_meshes.take n ++ List.replicate (n - d.particle_meshes.length) {},
      trail_meshes := d.trail_meshes.take n ++ List.replicate (n - d.trail_meshes.length) {} }
  (List.range n).foldl (initStep M sphere) d0

/-- The assignments `Emit_Particle` makes to the particle record: position, lifetime, drawn
maximal lifetime, activity, the trail reset to the emission point, and the drawn velocity. -/
def spawnParticle (M : MathFns) (emission_point : Vec3) (r : Draw) (p : Particle) : Particle :=
  { p with
    position := emission_point,
    lifetime := 0,
    max_lifetime := r.lifetime,
    active := true,
    trail_positions := [emission_point],
    velocity :=
      ⟨r.speed * r.upward_bias + 2,
       M.cos r.angle * r.speed * (7 / 10),
       M.sin r.angle * r.speed * (7 / 10)⟩ }

/-- Source function `MyDriver::Emit_Particle(index, time)` with the values `r` drawn from `rng`. -/
def Emit_Particle (M : MathFns) (d : MyDriver) (index : Nat) (_time : ℚ) (r : Draw) : MyDriver :=
  { d with
    particles := modifyAt (spawnParticle M d.emission_point r) index d.particles,
    particle_meshes := modifyAt (fun m => { m with visible := true }) index d.particle_meshes,
    trail_meshes := modifyAt (fun m => { m with visible := true }) index d.trail_meshes }

/-! ## The trail tube -/

/-- The local `base_radius` of `Update_Trail_Mesh`. -/
def base_radius : ℚ := 8 / 1000

/-- The local `segments` of `Update_Trail_Mesh`. -/
def segments : Nat := 6

/-- Ring vertex `j` of trail point `i`: the vector pushed by the inner vertex loop of
`Update_Trail_Mesh`.  The unqualified `abs(forward[1])` of the source is read as the absolute
value of the float. -/
def ringVertex (M : MathFns) (trail_positions : List Vec3) (i j : Nat) : Vec3 :=
  let size := trail_positions.length
  let pos := trail_positions.getD i Vec3.zero
  let fade : ℚ := (i : ℚ) / ((size - 1 : Nat) : ℚ)
  let radius := base_radius * fade
  let forward :=
    if i < size - 1 then
      Vec3.normalized M (Vec3.sub (trail_positions.getD (i + 1) Vec3.zero) pos)
    else
      Vec3.normalized M (Vec3.sub pos (trail_positions.getD (i - 1) Vec3.zero))
  let right :=
    if |forward.y| < 9 / 10 then
      Vec3.normalized M (Vec3.cross forward ⟨0, 1, 0⟩)
    else
      Vec3.normalized M (Vec3.cross forward ⟨1, 0, 0⟩)
  let up := Vec3.normalized M (Vec3.cross forward right)
  let angle : ℚ := 2 * M_PI * (j : ℚ) / (segments : ℚ)
  let offset := Vec3.smul (Vec3.add (Vec3.smul right (M.cos angle)) (Vec3.smul up (M.sin angle))) radius
  Vec3.add pos offset

/-- The vertex loop of `Update_Trail_Mesh`: one ring of `segments` vertices per trail point. -/
def tubeVertices (M : MathFns) (trail_positions : List Vec3) : List Vec3 :=
  (List.range trail_positions.length).flatMap fun i =>
    (List.range segments).map fun j => ringVertex M trail_positions i j

/-- The two triangles pushed by the inner triangle loop of `Update_Trail_Mesh` for ring `i` and
segment `j`. -/
def quadTriangles (i j : Nat) : List Vec3i :=
  let current : Int := ((i * segments + j : Nat) : Int)
  let next : Int := ((i * segments + (j + 1) % segments : Nat) : Int)
  let current_next_ring : Int := (((i + 1) * segments + j : Nat) : Int)
  let next_next_ring : Int := (((i + 1) * segments + (j + 1) % segments : Nat) : Int)
  [⟨current, next, current_next_ring⟩, ⟨next, next_next_ring, current_next_ring⟩]

/-- The triangle loop of `Update_Trail_Mesh` for a trail of `size` points. -/
def tubeTriangles (size : Nat) : List Vec3i :=
  (List.range (size - 1)).flatMap fun i =>
    (List.range segments).flatMap fun j => quadTriangles i j

/-- The effect of `Update_Trail_Mesh` on the trail mesh object, given the trail. -/
def rebuildTrail (M : MathFns) (trail_positions : List Vec3) (trail_mesh : OpenGLTriangleMesh) :
    OpenGLTriangleMesh :=
  if trail_positions.length < 2 then
    { trail_mesh with visible := false }
  else
    let vertices := tubeVertices M trail_positions
    let triangles := tubeTriangles trail_positions.length
    let m1 : OpenGLTriangleMesh :=
      { trail_mesh with mesh := { trail_mesh.mesh with vertices := vertices, elements := triangles } }
    { Compute_Vertex_Normals M m1 with visible := true }

/-- Source function `MyDriver::Update_Trail_Mesh(particle_idx)`: rebuild the trail mesh of the
slot from the trail of its particle. -/
def Update_Trail_Mesh (M : MathFns) (d : MyDriver) (particle_idx : Nat) : MyDriver :=
  match d.particles[particle_idx]? with
  | some p => { d with trail_meshes := modifyAt (rebuildTrail M p.trail_positions) particle_idx d.trail_meshes }
  | none => d

/-! ## The per-frame update -/

/-- The cast `(size_t)k` of an `int` on a 64-bit target. -/
def sizeT (k : Int) : Nat := (k % 2 ^ 64).toNat

/-- The gravity vector of `Update_Particles`. -/
def gravity : Vec3 := ⟨0, -49 / 5, 0⟩

/-- The physics part of one loop iteration of `Update_Particles` for an active particle whose
lifetime has already been advanced and which is not recycled: gravity, position, trail. -/
def integrate (dt : ℚ) (p : Particle) : Particle :=
  let velocity := Vec3.add p.velocity (Vec3.smul gravity dt)
  let position := Vec3.add p.position (Vec3.smul velocity dt)
  let trail := p.trail_positions ++ [position]
  { p with
    velocity := velocity,
    position := position,
    trail_positions := if trail.length > sizeT p.max_trail_length then trail.tail else trail }

/-- The scale of the particle head computed by `Update_Particles` (fades over the last fifth of
the lifetime). -/
def headScale (p : Particle) : ℚ :=
  let scale : ℚ := 1 / 50
  let life_ratio := p.lifetime / p.max_lifetime
  if life_ratio > 4 / 5 then scale * (1 - (life_ratio - 4 / 5) / (1 / 5)) else scale

/-- The body of the loop of `Update_Particles` for index `i`. -/
def updateStep (M : MathFns) (dt : ℚ) (d : MyDriver) (i : Nat) : MyDriver :=
  match d.particles[i]? with
  | none => d
  | some p =>
    if !p.active then d
    else
      let p1 : Particle := { p with lifetime := p.lifetime + dt }
      if p1.lifetime ≥ p1.max_lifetime then
        { d with
          particles := d.particles.set i { p1 with active := false },
          particle_meshes := modifyAt (fun m => { m with visible := false }) i d.particle_meshes,
          trail_meshes := modifyAt (fun m => { m with visible := false }) i d.trail_meshes }
      else
        let p2 := integrate dt p1
        let t := scaleTranslate (headScale p2) p2.position
        Update_Trail_Mesh M
          { d with
            particles := d.particles.set i p2,
            particle_meshes := modifyAt (fun m => { m with model_matrix := t }) i d.particle_meshes }
          i

/-- Source function `MyDriver::Update_Particles(dt)`: run the loop body for every index below
`num_particles`, in increasing order. -/
def Update_Particles (M : MathFns) (d : MyDriver) (dt : ℚ) : MyDriver :=
  (List.range d.num_particles.toNat).foldl (updateStep M dt) d

/-! ## Emission -/

/-- The burst loop of `Toggle_Next_Frame`,
`for (i = 0; i < num_particles && emitted < burst_count; i++)`, from index `i` with `remaining`
indices left below `num_particles`.  Spawn number `k` of the burst uses the draw `rng k`. -/
def burstLoop (M : MathFns) (time : ℚ) (burst_count : Int) (rng : Nat → Draw) :
    (remaining : Nat) → (i : Nat) → (emitted : Nat) → MyDriver → MyDriver × Nat
  | 0, _, emitted, d => (d, emitted)
  | remaining + 1, i, emitted, d =>
    if (emitted : Int) < burst_count then
      match d.particles[i]? with
      | some p =>
        if !p.active then
          burstLoop M time burst_count rng remaining (i + 1) (emitted + 1)
            (Emit_Particle M d i time (rng emitted))
        else
          burstLoop M time burst_count rng remaining (i + 1) emitted d
      | none => burstLoop M time burst_count rng remaining (i + 1) emitted d
    else (d, emitted)

/-- The emission step of `Toggle_Next_Frame` at time `time`, with the drawn `burst_count` and the
draws of the spawned particles; returns the new state and the number of particles spawned. -/
def emissionStep (M : MathFns) (d : MyDriver) (time : ℚ) (burst_count : Int) (rng : Nat → Draw) :
    MyDriver × Nat :=
  if time - d.last_emission_time ≥ d.emission_rate then
    let r := burstLoop M time burst_count rng d.num_particles.toNat 0 0 d
    ({ r.1 with last_emission_time := time }, r.2)
  else (d, 0)

/-- The particle part of `MyDriver::Toggle_Next_Frame`: the emission step, then
`Update_Particles(1/60)`. -/
def Toggle_Next_Frame (M : MathFns) (d : MyDriver) (time : ℚ) (burst_count : Int)
    (rng : Nat → Draw) : MyDriver :=
  Update_Particles M (emissionStep M d time burst_count rng).1 (1 / 60)

/-! ## Reachable states -/

/-- A call made on the driver after initialisation. -/
inductive Op where
  | emit (index : Nat) (time : ℚ) (r : Draw)
  | update (dt : ℚ)

/-- Perform one call. -/
def applyOp (M : MathFns) (d : MyDriver) : Op → MyDriver
  | Op.emit index time r => Emit_Particle M d index time r
  | Op.update dt => Update_Particles M d dt

/-- Perform a sequence of calls, first to last. -/
def runOps (M : MathFns) (d : MyDriver) (ops : List Op) : MyDriver :=
  ops.foldl (applyOp M) d

/-- The state after the constructor and `Initialize_Particles`. -/
def initialState (M : MathFns) (sphere : List TriangleMesh) : MyDriver :=
  Initialize_Particles M sphere MyDriver.new

/-- The trail of a particle respects its capacity, and the capacity is the constructor value. -/
def TrailBounded (p : Particle) : Prop :=
  (p.trail_positions.length : Int) ≤ p.max_trail_length ∧ p.max_trail_length = 15

/-! ## Auxiliary notions for the emission step -/

/-- Slot `i` holds an inactive particle. -/
def inactiveAt (d : MyDriver) (i : Nat) : Bool :=
  match d.particles[i]? with
  | some p => !p.active
  | none => false

/-- The indices below `num_particles` that hold an inactive particle, in increasing order. -/
def inactiveSlots (d : MyDriver) : List Nat :=
  (List.range d.num_particles.toNat).filter (inactiveAt d)

/-- Run the emission step at each listed time in turn, with the burst count and draws given for
that time; returns the final state and the number of particles spawned at each time. -/
def emissionRun (M : MathFns) : MyDriver → List (ℚ × Int × (Nat → Draw)) → MyDriver × List Nat
  | d, [] => (d, [])
  | d, (time, burst_count, rng) :: rest =>
    let out := emissionStep M d time burst_count rng
    let r := emissionRun M out.1 rest
    (r.1, out.2 :: r.2)

/-- Rational stand-ins for the math library, exact on the inputs used in the examples: the
square root of a quotient of perfect squares, and the Taylor polynomials of degree four and
five of cosine and sine. -/
def exampleMath : MathFns where
  sqrt q := (Nat.sqrt q.num.toNat : ℚ) / (Nat.sqrt q.den : ℚ)
  cos t := 1 - t ^ 2 / 2 + t ^ 4 / 24
  sin t := t - t ^ 3 / 6 + t ^ 5 / 120

/-- A draw inside the ranges of `Emit_Particle`. -/
def exampleDraw : Draw := ⟨2, 1, 2, 1 / 2⟩

/-- A pool of three slots: the first active, the other two inactive. -/
def examplePool : MyDriver :=
  { particles := [{ active := true, trail_positions := [⟨1 / 5, 13 / 10, 0⟩] }, {}, {}],
    particle_meshes := [{}, { visible := false }, { visible := false }],
    trail_meshes := [{}, { visible := false }, { visible := false }],
    num_particles := 3 }

/-! ## The effect of one update on one slot -/

/-- The particle record of a slot after its iteration of the loop of `Update_Particles`. -/
def stepParticle (dt : ℚ) (p : Particle) : Particle :=
  if !p.active then p
  else
    let p1 : Particle := { p with lifetime := p.lifetime + dt }
    if p1.lifetime ≥ p1.max_lifetime then { p1 with active := false }
    else integrate dt p1

/-- The particle mesh of a slot after its iteration of the loop of `Update_Particles`, given the
particle record `p` the slot held before. -/
def stepParticleMesh (dt : ℚ) (p : Particle) (m : OpenGLTriangleMesh) : OpenGLTriangleMesh :=
  if !p.active then m
  else
    let p1 : Particle := { p with lifetime := p.lifetime + dt }
    if p1.lifetime ≥ p1.max_lifetime then { m with visible := false }
    else
      let p2 := integrate dt p1
      { m with model_matrix := scaleTranslate (headScale p2) p2.position }

/-- The trail mesh of a slot after its iteration of the loop of `Update_Particles`, given the
particle record `p` the slot held before. -/
def stepTrailMesh (M : MathFns) (dt : ℚ) (p : Particle) (m : OpenGLTriangleMesh) :
    OpenGLTriangleMesh :=
  if !p.active then m
  else
    let p1 : Particle := { p with lifetime := p.lifetime + dt }
    if p1.lifetime ≥ p1.max_lifetime then { m with visible := false }
    else rebuildTrail M (integrate dt p1).trail_positions m

/-- The three entries of slot `j`: particle record, particle mesh, trail mesh. -/
def slotAt (d : MyDriver) (j : Nat) :
    Option Particle × Option OpenGLTriangleMesh × Option OpenGLTriangleMesh :=
  (d.particles[j]?, d.particle_meshes[j]?, d.trail_meshes[j]?)

/-- The three entries of a slot after its iteration of the loop of `Update_Particles`. -/
def stepSlot (M : MathFns) (dt : ℚ) :
    Option Particle × Option OpenGLTriangleMesh × Option OpenGLTriangleMesh →
    Option Particle × Option OpenGLTriangleMesh × Option OpenGLTriangleMesh
  | (some p, pm, tm) =>
    (some (stepParticle dt p), pm.map (stepParticleMesh dt p), tm.map (stepTrailMesh M dt p))
  | (none, pm, tm) => (none, pm, tm)

/-- The pool of the lifespan scenario: one particle, just spawned at the emission point with
velocity `(0, 5, 0)` and a maximal lifetime of 2 seconds. -/
def scenarioPool : MyDriver :=
  { particles :=
      [{ position := ⟨1 / 5, 13 / 10, 0⟩, velocity := ⟨0, 5, 0⟩, lifetime := 0, max_lifetime := 2,
         active := true, trail_positions := [⟨1 / 5, 13 / 10, 0⟩] }],
    particle_meshes := [{}],
    trail_meshes := [{}],
    num_particles := 1 }

/-! ## Valid meshes -/

/-- Every corner index of every triangle is a valid vertex index. -/
def IndicesValid (m : TriangleMesh) : Prop :=
  ∀ t ∈ m.elements,
    (0 ≤ t.i0 ∧ t.i0 < (m.vertices.length : Int)) ∧
    (0 ≤ t.i1 ∧ t.i1 < (m.vertices.length : Int)) ∧
    (0 ≤ t.i2 ∧ t.i2 < (m.vertices.length : Int))

/-- A mesh object with one triangle in the plane `z = 0` and a fourth vertex used by no
triangle. -/
def exampleMeshObject : OpenGLTriangleMesh :=
  { mesh := { vertices := [⟨0, 0, 0⟩, ⟨1, 0, 0⟩, ⟨0, 1, 0⟩, ⟨5, 5, 5⟩], elements := [⟨0, 1, 2⟩] } }

/-! ## Reference definition of the merged triangles -/

/-- Triangle `f` with `offset` added to each of its three indices, corner order kept. -/
def shiftTriangle (offset : Nat) (f : Vec3i) : Vec3i :=
  ⟨f.i0 + (offset : Int), f.i1 + (offset : Int), f.i2 + (offset : Int)⟩

/-- The reference triangle sequence of a merge: the triangles of the submeshes in input order,
each remapped by the number of vertices of the submeshes before its own (`offset` counts the
vertices merged so far). -/
def remappedElements : Nat → List TriangleMesh → List Vec3i
  | _, [] => []
  | offset, m :: rest =>
    m.elements.map (shiftTriangle offset) ++ remappedElements (offset + m.vertices.length) rest

/-- Two submeshes: a triangle, and a quad made of two triangles. -/
def exampleSubmeshes : List TriangleMesh :=
  [{ vertices := [⟨0, 0, 0⟩, ⟨1, 0, 0⟩, ⟨0, 1, 0⟩], elements := [⟨0, 1, 2⟩] },
   { vertices := [⟨0, 0, 1⟩, ⟨1, 0, 1⟩, ⟨1, 1, 1⟩, ⟨0, 1, 1⟩],
     elements := [⟨0, 1, 2⟩, ⟨0, 2, 3⟩] }]

/-- An active particle with a trail of two positions. -/
def longTrailParticle : Particle :=
  { position := ⟨1, 2, 0⟩, active := true, trail_positions := [⟨1, 1, 0⟩, ⟨1, 2, 0⟩] }

/-- An active particle with a trail of one position. -/
def shortTrailParticle : Particle :=
  { position := ⟨1, 1, 0⟩, active := true, trail_positions := [⟨1, 1, 0⟩] }

/-- A pool of two active slots: the first has a trail of two positions and an empty trail mesh,
the second a trail of one position and a trail mesh that still holds geometry. -/
def tubePool : MyDriver :=
  { particles := [longTrailParticle, shortTrailParticle],
    particle_meshes := [{}, {}],
    trail_meshes := [{}, exampleMeshObject],
    num_particles := 2 }

/-! ## The local frame of the trail tube -/

/-- The vector `right` of `Update_Trail_Mesh` for a given `forward`. -/
def frameRight (M : MathFns) (forward : Vec3) : Vec3 :=
  if |forward.y| < 9 / 10 then
    Vec3.normalized M (Vec3.cross forward ⟨0, 1, 0⟩)
  else
    Vec3.normalized M (Vec3.cross forward ⟨1, 0, 0⟩)

/-- The vector `up` of `Update_Trail_Mesh` for a given `forward`. -/
def frameUp (M : MathFns) (forward : Vec3) : Vec3 :=
  Vec3.normalized M (Vec3.cross forward (frameRight M forward))

/-- The vector `forward` of `Update_Trail_Mesh` at trail point `i`: the normalized step to the
next point, and for the last point the normalized step from the previous one. -/
def trailForward (M : MathFns) (trail_positions : List Vec3) (i : Nat) : Vec3 :=
  if i < trail_positions.length - 1 then
    Vec3.normalized M
      (Vec3.sub (trail_positions.getD (i + 1) Vec3.zero) (trail_positions.getD i Vec3.zero))
  else
    Vec3.normalized M
      (Vec3.sub (trail_positions.getD i Vec3.zero) (trail_positions.getD (i - 1) Vec3.zero))

/-- The local `radius` of `Update_Trail_Mesh` at trail point `i` of a trail of `size` points. -/
def trailRadius (size i : Nat) : ℚ :=
  base_radius * ((i : ℚ) / ((size - 1 : Nat) : ℚ))

/-- The local `angle` of `Update_Trail_Mesh` for segment `j`. -/
def ringAngle (j : Nat) : ℚ := 2 * M_PI * (j : ℚ) / (segments : ℚ)

/-- An active particle has a trail whose newest (back) element is its current position; the
trail also respects its capacity. -/
def TrailTracks (p : Particle) : Prop :=
  TrailBounded p ∧ (p.active = true → p.trail_positions.getLast? = some p.position)

/-! ## The vector computations over an arbitrary ordered field

The definitions above fix the scalars of the source (`float`) to `ℚ`, where most lengths have no
exact square root.  The normal computation and the local frame of the trail tube are written
here once more for any linearly ordered field `K`, so that they can be read over the reals; the
rational definitions above are their instance at `K = ℚ` (`vertexNormals_toK`,
`frameRight_toK`, `frameUp_toK`). -/

/-- Three-component vector of the source (`Vector3`) with scalars in `K`. -/
structure Vec3K (K : Type) where
  x : K
  y : K
  z : K

/-- The functions of the C math library the source calls, on scalars in `K`. -/
structure MathFnsK (K : Type) where
  sqrt : K → K
  cos : K → K
  sin : K → K

/-- The rational vector as a vector over the field `ℚ`. -/
def Vec3.toK (a : Vec3) : Vec3K ℚ := ⟨a.x, a.y, a.z⟩

/-- The rational math functions as math functions over the field `ℚ`. -/
def MathFns.toK (M : MathFns) : MathFnsK ℚ := ⟨M.sqrt, M.cos, M.sin⟩

namespace Vec3K

/-- The vector `Vector3(0, 0, 0)`. -/
def zero {K : Type} [LinearOrderedField K] : Vec3K K := ⟨0, 0, 0⟩

/-- Componentwise sum, `a + b`. -/
def add {K : Type} [LinearOrderedField K] (a b : Vec3K K) : Vec3K K :=
  ⟨a.x + b.x, a.y + b.y, a.z + b.z⟩

/-- Componentwise difference, `a - b`. -/
def sub {K : Type} [LinearOrderedField K] (a b : Vec3K K) : Vec3K K :=
  ⟨a.x - b.x, a.y - b.y, a.z - b.z⟩

/-- Quotient by a scalar, `a / s`. -/
def sdiv {K : Type} [LinearOrderedField K] (a : Vec3K K) (s : K) : Vec3K K :=
  ⟨a.x / s, a.y / s, a.z / s⟩

/-- Inner product, `a.dot(b)`. -/
def dot {K : Type} [LinearOrderedField K] (a b : Vec3K K) : K :=
  a.x * b.x + a.y * b.y + a.z * b.z

/-- Cross product, `a.cross(b)`. -/
def cross {K : Type} [LinearOrderedField K] (a b : Vec3K K) : Vec3K K :=
  ⟨a.y * b.z - a.z * b.y, a.z * b.x - a.x * b.z, a.x * b.y - a.y * b.x⟩

/-- Euclidean length, `a.norm()`: the square root of the squared length. -/
def norm {K : Type} [LinearOrderedField K] (M : MathFnsK K) (a : Vec3K K) : K :=
  M.sqrt (dot a a)

/-- Eigen `a.normalized()`: the vector divided by its length, and the vector itself when its
squared length is not positive. -/
def normalized {K : Type} [LinearOrderedField K] (M : MathFnsK K) (a : Vec3K K) : Vec3K K :=
  if 0 < dot a a then sdiv a (M.sqrt (dot a a)) else a

end Vec3K

/-- Read `l[k]` for an `int` index `k`; an index outside the list reads the zero vector. -/
def vgetK {K : Type} [LinearOrderedField K] (l : List (Vec3K K)) (k : Int) : Vec3K K :=
  if 0 ≤ k then l.getD k.toNat Vec3K.zero else Vec3K.zero

/-- The statement `l[k] += f` for an `int` index `k`; an index outside the list changes
nothing. -/
def vaddAtK {K : Type} [LinearOrderedField K] (l : List (Vec3K K)) (k : Int) (f : Vec3K K) :
    List (Vec3K K) :=
  if 0 ≤ k then
    match l[k.toNat]? with
    | some n => l.set k.toNat (Vec3K.add n f)
    | none => l
  else l

/-- The un-normalized face normal `edge1.cross(edge2)` of triangle `tri`, with
`edge1 = v1 - v0` and `edge2 = v2 - v0`. -/
def faceNormalK {K : Type} [LinearOrderedField K] (vertices : List (Vec3K K)) (tri : Vec3i) :
    Vec3K K :=
  let v0 := vgetK vertices tri.i0
  let v1 := vgetK vertices tri.i1
  let v2 := vgetK vertices tri.i2
  let edge1 := Vec3K.sub v1 v0
  let edge2 := Vec3K.sub v2 v0
  Vec3K.cross edge1 edge2

/-- One iteration of the accumulation loop of `Compute_Vertex_Normals`. -/
def accumulateTriK {K : Type} [LinearOrderedField K] (vertices : List (Vec3K K))
    (normals : List (Vec3K K)) (tri : Vec3i) : List (Vec3K K) :=
  let face_normal := faceNormalK vertices tri
  vaddAtK (vaddAtK (vaddAtK normals tri.i0 face_normal) tri.i1 face_normal) tri.i2 face_normal

/-- The accumulation loop of `Compute_Vertex_Normals`, started from all-zero normals. -/
def accumulateNormalsK {K : Type} [LinearOrderedField K] (vertices : List (Vec3K K))
    (triangles : List Vec3i) : List (Vec3K K) :=
  triangles.foldl (accumulateTriK vertices) (List.replicate vertices.length Vec3K.zero)

/-- One iteration of the normalisation loop of `Compute_Vertex_Normals`. -/
def normalizeOrFallbackK {K : Type} [LinearOrderedField K] (M : MathFnsK K) (n : Vec3K K) :
    Vec3K K :=
  let length := Vec3K.norm M n
  if length > 1 / 1000000 then Vec3K.sdiv n length else ⟨0, 1, 0⟩

/-- The normals computed by `Compute_Vertex_Normals` for the given vertices and triangles. -/
def vertexNormalsK {K : Type} [LinearOrderedField K] (M : MathFnsK K)
    (vertices : List (Vec3K K)) (triangles : List Vec3i) : List (Vec3K K) :=
  (accumulateNormalsK vertices triangles).map (normalizeOrFallbackK M)

/-- The reference axis `Update_Trail_Mesh` crosses `forward` with: world up `(0, 1, 0)` when
`abs(forward[1]) < 0.9`, and `(1, 0, 0)` otherwise. -/
def frameRefK {K : Type} [LinearOrderedField K] (forward : Vec3K K) : Vec3K K :=
  if |forward.y| < 9 / 10 then ⟨0, 1, 0⟩ else ⟨1, 0, 0⟩

/-- The vector `right` of `Update_Trail_Mesh` for a given `forward`. -/
def frameRightK {K : Type} [LinearOrderedField K] (M : MathFnsK K) (forward : Vec3K K) :
    Vec3K K :=
  if |forward.y| < 9 / 10 then
    Vec3K.normalized M (Vec3K.cross forward ⟨0, 1, 0⟩)
  else
    Vec3K.normalized M (Vec3K.cross forward ⟨1, 0, 0⟩)

/-- The vector `up` of `Update_Trail_Mesh` for a given `forward`. -/
def frameUpK {K : Type} [LinearOrderedField K] (M : MathFnsK K) (forward : Vec3K K) :
    Vec3K K :=
  Vec3K.normalized M (Vec3K.cross forward (frameRightK M forward))

/-! ## Reference definition of the smooth normals -/

/-- The reference face normal of triangle `t`, written out in coordinates: the cross product
`(v1 - v0) x (v2 - v0)` of its corner positions `v0`, `v1`, `v2`. -/
def referenceFaceNormal {K : Type} [LinearOrderedField K] (vertices : List (Vec3K K))
    (t : Vec3i) : Vec3K K :=
  match vertices[t.i0.toNat]?, vertices[t.i1.toNat]?, vertices[t.i2.toNat]? with
  | some v0, some v1, some v2 =>
    ⟨(v1.y - v0.y) * (v2.z - v0.z) - (v1.z - v0.z) * (v2.y - v0.y),
     (v1.z - v0.z) * (v2.x - v0.x) - (v1.x - v0.x) * (v2.z - v0.z),
     (v1.x - v0.x) * (v2.y - v0.y) - (v1.y - v0.y) * (v2.x - v0.x)⟩
  | _, _, _ => ⟨0, 0, 0⟩

/-- The face normals that vertex `v` receives: one copy of the reference face normal of `t` for
every triangle `t` and every corner `c` of `t` with `t[c] = v`. -/
def referenceContributions {K : Type} [LinearOrderedField K] (vertices : List (Vec3K K))
    (triangles : List Vec3i) (v : Nat) : List (Vec3K K) :=
  triangles.flatMap fun t =>
    ([t.i0, t.i1, t.i2].filter (fun c => c = (v : Int))).map
      (fun _ => referenceFaceNormal vertices t)

/-- The reference accumulated normal `A_v` of vertex `v`: the coordinatewise sum of its
contributions. -/
def referenceAccumulatedNormal {K : Type} [LinearOrderedField K] (vertices : List (Vec3K K))
    (triangles : List Vec3i) (v : Nat) : Vec3K K :=
  ⟨((referenceContributions vertices triangles v).map (fun n => n.x)).sum,
   ((referenceContributions vertices triangles v).map (fun n => n.y)).sum,
   ((referenceContributions vertices triangles v).map (fun n => n.z)).sum⟩

/-- Every corner index of every triangle is a valid index into `vertices`. -/
def TrianglesValid {K : Type} (vertices : List (Vec3K K)) (triangles : List Vec3i) : Prop :=
  ∀ t ∈ triangles,
    (0 ≤ t.i0 ∧ t.i0 < (vertices.length : Int)) ∧
    (0 ≤ t.i1 ∧ t.i1 < (vertices.length : Int)) ∧
    (0 ≤ t.i2 ∧ t.i2 < (vertices.length : Int))

/-! # Properties -/

/-! ## Indexed updates of lists -/

theorem getElem?_modifyAt_self {α : Type} (f : α → α) (i : Nat) (l : List α) :
    (modifyAt f i l)[i]? = l[i]?.map f := by
  unfold modifyAt
  cases h : l[i]? with
  | none => simp [h]
  | some a =>
    have hi : i < l.length := by
      by_contra hc
      rw [List.getElem?_eq_none (by omega)] at h
      cases h
    simp [List.getElem?_set, hi]

theorem getElem?_modifyAt_ne {α : Type} (f : α → α) {i j : Nat} (h : i ≠ j) (l : List α) :
    (modifyAt f i l)[j]? = l[j]? := by
  unfold modifyAt
  cases l[i]? with
  | none => rfl
  | some a => simp [List.getElem?_set, h]

theorem length_modifyAt {α : Type} (f : α → α) (i : Nat) (l : List α) :
    (modifyAt f i l).length = l.length := by
  unfold modifyAt
  cases l[i]? <;> simp

theorem forall_mem_modifyAt {α : Type} (P : α → Prop) (f : α → α) (i : Nat) (l : List α)
    (hf : ∀ a, P a → P (f a)) (hl : ∀ a ∈ l, P a) : ∀ a ∈ modifyAt f i l, P a := by
  unfold modifyAt
  cases h : l[i]? with
  | none => simpa using hl
  | some b =>
    intro a ha
    rcases List.mem_or_eq_of_mem_set ha with hm | he
    · exact hl a hm
    · subst he
      exact hf b (hl b (List.getElem?_mem h))

theorem forall_mem_set {α : Type} (P : α → Prop) (i : Nat) (b : α) (l : List α)
    (hb : P b) (hl : ∀ a ∈ l, P a) : ∀ a ∈ l.set i b, P a := by
  intro a ha
  rcases List.mem_or_eq_of_mem_set ha with hm | he
  · exact hl a hm
  · exact he ▸ hb

/-! ## The trail length invariant -/

theorem sizeT_fifteen : sizeT 15 = 15 := by decide

theorem trailBounded_integrate (dt : ℚ) (p : Particle) (h : TrailBounded p) :
    TrailBounded (integrate dt p) := by
  obtain ⟨hlen, hmax⟩ := h
  unfold TrailBounded integrate
  simp only [hmax, sizeT_fifteen, List.length_append, List.length_singleton]
  refine ⟨?_, trivial⟩
  rw [hmax] at hlen
  split
  · simp only [List.length_tail, List.length_append, List.length_singleton]
    omega
  · simp only [List.length_append, List.length_singleton]
    omega

theorem particles_Update_Trail_Mesh (M : MathFns) (d : MyDriver) (i : Nat) :
    (Update_Trail_Mesh M d i).particles = d.particles := by
  unfold Update_Trail_Mesh
  cases d.particles[i]? <;> rfl

theorem trailBounded_updateStep (M : MathFns) (dt : ℚ) (d : MyDriver) (i : Nat)
    (h : ∀ p ∈ d.particles, TrailBounded p) :
    ∀ p ∈ (updateStep M dt d i).particles, TrailBounded p := by
  unfold updateStep
  cases hp : d.particles[i]? with
  | none => simpa using h
  | some p =>
    have hpb : TrailBounded p := h p (List.getElem?_mem hp)
    simp only
    split
    · exact h
    · split
      · exact forall_mem_set _ _ _ _ hpb h
      · rw [particles_Update_Trail_Mesh]
        exact forall_mem_set _ _ _ _ (trailBounded_integrate dt _ hpb) h

theorem trailBounded_Update_Particles (M : MathFns) (dt : ℚ) (d : MyDriver)
    (h : ∀ p ∈ d.particles, TrailBounded p) :
    ∀ p ∈ (Update_Particles M d dt).particles, TrailBounded p := by
  unfold Update_Particles
  generalize List.range d.num_particles.toNat = idx
  induction idx generalizing d with
  | nil => simpa using h
  | cons i rest ih =>
    rw [List.foldl_cons]
    exact ih _ (trailBounded_updateStep M dt d i h)

theorem trailBounded_Emit_Particle (M : MathFns) (d : MyDriver) (index : Nat) (time : ℚ)
    (r : Draw) (h : ∀ p ∈ d.particles, TrailBounded p) :
    ∀ p ∈ (Emit_Particle M d index time r).particles, TrailBounded p := by
  unfold Emit_Particle
  refine forall_mem_modifyAt _ _ _ _ ?_ h
  intro a ha
  refine ⟨?_, ha.2⟩
  simp [spawnParticle, ha.2]

theorem trailBounded_initStep (M : MathFns) (sphere : List TriangleMesh) (d : MyDriver) (i : Nat)
    (h : ∀ p ∈ d.particles, TrailBounded p) :
    ∀ p ∈ (initStep M sphere d i).particles, TrailBounded p := by
  unfold initStep
  exact forall_mem_modifyAt _ _ _ _ (fun a ha => ha) h

theorem trailBounded_initialState (M : MathFns) (sphere : List TriangleMesh) :
    ∀ p ∈ (initialState M sphere).particles, TrailBounded p := by
  unfold initialState Initialize_Particles
  simp only
  generalize List.range (MyDriver.new).num_particles.toNat = idx
  have h0 : ∀ p ∈ ({ MyDriver.new with
      particles := (MyDriver.new).particles.take (MyDriver.new).num_particles.toNat ++
        List.replicate ((MyDriver.new).num_particles.toNat - (MyDriver.new).particles.length) {},
      particle_meshes :=
        (MyDriver.new).particle_meshes.take (MyDriver.new).num_particles.toNat ++
          List.replicate
            ((MyDriver.new).num_particles.toNat - (MyDriver.new).particle_meshes.length) {},
      trail_meshes := (MyDriver.new).trail_meshes.take (MyDriver.new).num_particles.toNat ++
        List.replicate
          ((MyDriver.new).num_particles.toNat - (MyDriver.new).trail_meshes.length) {} } :
        MyDriver).particles, TrailBounded p := by
    intro p hp
    simp only [MyDriver.new, List.take_nil, List.nil_append] at hp
    rw [List.eq_of_mem_replicate hp]
    exact ⟨by simp, rfl⟩
  revert h0
  generalize ({ MyDriver.new with
      particles := (MyDriver.new).particles.take (MyDriver.new).num_particles.toNat ++
        List.replicate ((MyDriver.new).num_particles.toNat - (MyDriver.new).particles.length) {},
      particle_meshes :=
        (MyDriver.new).particle_meshes.take (MyDriver.new).num_particles.toNat ++
          List.replicate
            ((MyDriver.new).num_particles.toNat - (MyDriver.new).particle_meshes.length) {},
      trail_meshes := (MyDriver.new).trail_meshes.take (MyDriver.new).num_particles.toNat ++
        List.replicate
          ((MyDriver.new).num_particles.toNat - (MyDriver.new).trail_meshes.length) {} } :
        MyDriver) = d0
  intro h0
  induction idx generalizing d0 with
  | nil => simpa using h0
  | cons i rest ih =>
    rw [List.foldl_cons]
    exact ih _ (trailBounded_initStep M sphere d0 i h0)

theorem trailBounded_runOps (M : MathFns) (d : MyDriver) (ops : List Op)
    (h : ∀ p ∈ d.particles, TrailBounded p) :
    ∀ p ∈ (runOps M d ops).particles, TrailBounded p := by
  unfold runOps
  induction ops generalizing d with
  | nil => simpa using h
  | cons op rest ih =>
    rw [List.foldl_cons]
    apply ih
    cases op with
    | emit index time r => exact trailBounded_Emit_Particle M d index time r h
    | update dt => exact trailBounded_Update_Particles M dt d h

/-- C1. Trail length invariant: in every state reached from `Initialize_Particles` by any
sequence of `Emit_Particle` and `Update_Particles` calls (any index, any draws, any `dt`), every
particle has between 0 and `max_trail_length` trail positions, and `max_trail_length` is 15. -/
theorem trail_length_invariant (M : MathFns) (sphere : List TriangleMesh) (ops : List Op) :
    ∀ p ∈ (runOps M (initialState M sphere) ops).particles,
      0 ≤ p.trail_positions.length ∧
      (p.trail_positions.length : Int) ≤ p.max_trail_length ∧
      p.max_trail_length = 15 := by
  intro p hp
  have h := trailBounded_runOps M _ ops (trailBounded_initialState M sphere) p hp
  exact ⟨Nat.zero_le _, h.1, h.2⟩

/-! ## The emission step -/

theorem particles_Emit_Particle_getElem? (M : MathFns) (d : MyDriver) (i : Nat) (time : ℚ)
    (r : Draw) (j : Nat) :
    (Emit_Particle M d i time r).particles[j]? =
      if i = j then d.particles[j]?.map (spawnParticle M d.emission_point r)
      else d.particles[j]? := by
  unfold Emit_Particle
  by_cases h : i = j
  · subst h
    simp [getElem?_modifyAt_self]
  · simp [h, getElem?_modifyAt_ne _ h]

theorem inactiveAt_Emit_Particle_ne (M : MathFns) (d : MyDriver) (i : Nat) (time : ℚ)
    (r : Draw) {j : Nat} (h : i ≠ j) :
    inactiveAt (Emit_Particle M d i time r) j = inactiveAt d j := by
  unfold inactiveAt
  rw [particles_Emit_Particle_getElem?, if_neg h]

theorem filter_inactiveAt_Emit_Particle (M : MathFns) (d : MyDriver) (i : Nat) (time : ℚ)
    (r : Draw) (n : Nat) :
    (List.range' (i + 1) n).filter (inactiveAt (Emit_Particle M d i time r)) =
      (List.range' (i + 1) n).filter (inactiveAt d) := by
  apply List.filter_congr
  intro x hx
  rw [List.mem_range'] at hx
  obtain ⟨k, _, hk⟩ := hx
  exact inactiveAt_Emit_Particle_ne M d i time r (by omega)

theorem not_mem_take_filter_range' (f : Nat → Bool) (i n q : Nat) :
    i ∉ ((List.range' (i + 1) n).filter f).take q := by
  intro h
  have h1 := List.mem_of_mem_take h
  have h2 := (List.mem_filter.mp h1).1
  rw [List.mem_range'] at h2
  obtain ⟨k, _, hk⟩ := h2
  omega

/-- The burst loop spawns, in index order, the first inactive slots it meets until the burst
count is reached, and touches nothing else. -/
theorem burstLoop_spec (M : MathFns) (time : ℚ) (burst_count : Int) (rng : Nat → Draw) :
    ∀ (remaining i emitted : Nat) (d : MyDriver),
      (burstLoop M time burst_count rng remaining i emitted d).2 =
          emitted + (((List.range' i remaining).filter (inactiveAt d)).take
            (burst_count.toNat - emitted)).length ∧
      ((burstLoop M time burst_count rng remaining i emitted d).1.emission_point =
          d.emission_point ∧
        (burstLoop M time burst_count rng remaining i emitted d).1.num_particles =
          d.num_particles ∧
        (burstLoop M time burst_count rng remaining i emitted d).1.emission_rate =
          d.emission_rate) ∧
      ∀ j, (burstLoop M time burst_count rng remaining i emitted d).1.particles[j]? =
        d.particles[j]?.map (fun p =>
          if j ∈ ((List.range' i remaining).filter (inactiveAt d)).take
              (burst_count.toNat - emitted) then
            spawnParticle M d.emission_point
              (rng (emitted + List.indexOf j (((List.range' i remaining).filter
                (inactiveAt d)).take (burst_count.toNat - emitted)))) p
          else p) := by
  intro remaining
  induction remaining with
  | zero =>
    intro i emitted d
    simp [burstLoop]
  | succ n ih =>
    intro i emitted d
    have skip : inactiveAt d i = false →
        ((List.range' i (n + 1)).filter (inactiveAt d)) =
          ((List.range' (i + 1) n).filter (inactiveAt d)) := by
      intro hf
      rw [List.range'_succ, List.filter_cons_of_neg (by simp [hf])]
    by_cases hq : (emitted : Int) < burst_count
    · cases hp : d.particles[i]? with
      | none =>
        have hf : inactiveAt d i = false := by simp [inactiveAt, hp]
        have hb : burstLoop M time burst_count rng (n + 1) i emitted d =
            burstLoop M time burst_count rng n (i + 1) emitted d := by
          simp [burstLoop, hq, hp]
        rw [hb, skip hf]
        exact ih (i + 1) emitted d
      | some p =>
        cases hact : p.active with
        | true =>
          have hf : inactiveAt d i = false := by simp [inactiveAt, hp, hact]
          have hb : burstLoop M time burst_count rng (n + 1) i emitted d =
              burstLoop M time burst_count rng n (i + 1) emitted d := by
            simp [burstLoop, hq, hp, hact]
          rw [hb, skip hf]
          exact ih (i + 1) emitted d
        | false =>
          have ht : inactiveAt d i = true := by simp [inactiveAt, hp, hact]
          have hb : burstLoop M time burst_count rng (n + 1) i emitted d =
              burstLoop M time burst_count rng n (i + 1) (emitted + 1)
                (Emit_Particle M d i time (rng emitted)) := by
            simp [burstLoop, hq, hp, hact]
          have hquota : burst_count.toNat - emitted = (burst_count.toNat - (emitted + 1)) + 1 := by
            omega
          have hchosen : ((List.range' i (n + 1)).filter (inactiveAt d)).take
              (burst_count.toNat - emitted) =
              i :: ((List.range' (i + 1) n).filter (inactiveAt d)).take
                (burst_count.toNat - (emitted + 1)) := by
            rw [List.range'_succ, List.filter_cons_of_pos (by simp [ht]), hquota,
              List.take_succ_cons]
          obtain ⟨h1, h2, h3⟩ := ih (i + 1) (emitted + 1) (Emit_Particle M d i time (rng emitted))
          rw [filter_inactiveAt_Emit_Particle] at h1 h3
          rw [hb, hchosen]
          refine ⟨?_, ?_, ?_⟩
          · rw [h1, List.length_cons]
            omega
          · exact h2
          · intro j
            rw [h3 j, particles_Emit_Particle_getElem?]
            have hni := not_mem_take_filter_range' (inactiveAt d) i n
              (burst_count.toNat - (emitted + 1))
            by_cases hij : i = j
            · subst hij
              simp [hni, Emit_Particle]
              rfl
            · have hji : j ≠ i := fun h => hij h.symm
              rw [if_neg hij, List.indexOf_cons_ne _ hij]
              simp only [List.mem_cons, hji, false_or, Emit_Particle]
              congr 1
              funext q
              split
              · congr 2
                omega
              · rfl
    · have hb : burstLoop M time burst_count rng (n + 1) i emitted d = (d, emitted) := by
        simp [burstLoop, hq]
      have h0 : burst_count.toNat - emitted = 0 := by omega
      rw [hb, h0]
      simp

/-! ## The initial state -/

theorem foldl_initStep_spec (M : MathFns) (sphere : List TriangleMesh) (idx : List Nat) :
    ∀ d : MyDriver,
      (idx.foldl (initStep M sphere) d).num_particles = d.num_particles ∧
      (idx.foldl (initStep M sphere) d).emission_rate = d.emission_rate ∧
      (idx.foldl (initStep M sphere) d).last_emission_time = d.last_emission_time ∧
      (idx.foldl (initStep M sphere) d).emission_point = d.emission_point ∧
      (idx.foldl (initStep M sphere) d).particles.length = d.particles.length ∧
      ((∀ p ∈ d.particles, p = ({} : Particle)) →
        ∀ p ∈ (idx.foldl (initStep M sphere) d).particles, p = ({} : Particle)) := by
  induction idx with
  | nil => intro d; simp
  | cons i rest ih =>
    intro d
    rw [List.foldl_cons]
    obtain ⟨h1, h2, h3, h4, h5, h6⟩ := ih (initStep M sphere d i)
    refine ⟨h1, h2, h3, h4, ?_, ?_⟩
    · rw [h5]
      exact length_modifyAt _ _ _
    · intro hd
      apply h6
      refine forall_mem_modifyAt (fun p => p = ({} : Particle)) _ _ _ ?_ hd
      intro a ha
      rw [ha]

theorem particles_initialState (M : MathFns) (sphere : List TriangleMesh) :
    (initialState M sphere).particles = List.replicate 100 {} := by
  unfold initialState Initialize_Particles
  simp only
  obtain ⟨-, -, -, -, h5, h6⟩ := foldl_initStep_spec M sphere
    (List.range (MyDriver.new).num_particles.toNat)
    { MyDriver.new with
      particles := (MyDriver.new).particles.take (MyDriver.new).num_particles.toNat ++
        List.replicate ((MyDriver.new).num_particles.toNat - (MyDriver.new).particles.length) {},
      particle_meshes :=
        (MyDriver.new).particle_meshes.take (MyDriver.new).num_particles.toNat ++
          List.replicate
            ((MyDriver.new).num_particles.toNat - (MyDriver.new).particle_meshes.length) {},
      trail_meshes := (MyDriver.new).trail_meshes.take (MyDriver.new).num_particles.toNat ++
        List.replicate
          ((MyDriver.new).num_particles.toNat - (MyDriver.new).trail_meshes.length) {} }
  rw [List.eq_replicate_iff]
  refine ⟨?_, ?_⟩
  · rw [h5]
    simp [MyDriver.new]
  · apply h6
    intro p hp
    simp only [MyDriver.new, List.take_nil, List.nil_append] at hp
    exact List.eq_of_mem_replicate hp

theorem fields_initialState (M : MathFns) (sphere : List TriangleMesh) :
    (initialState M sphere).num_particles = 100 ∧
    (initialState M sphere).emission_rate = 8 / 5 ∧
    (initialState M sphere).last_emission_time = 0 ∧
    (initialState M sphere).emission_point = ⟨1 / 5, 13 / 10, 0⟩ := by
  unfold initialState Initialize_Particles
  simp only
  obtain ⟨h1, h2, h3, h4, -, -⟩ := foldl_initStep_spec M sphere
    (List.range (MyDriver.new).num_particles.toNat)
    { MyDriver.new with
      particles := (MyDriver.new).particles.take (MyDriver.new).num_particles.toNat ++
        List.replicate ((MyDriver.new).num_particles.toNat - (MyDriver.new).particles.length) {},
      particle_meshes :=
        (MyDriver.new).particle_meshes.take (MyDriver.new).num_particles.toNat ++
          List.replicate
            ((MyDriver.new).num_particles.toNat - (MyDriver.new).particle_meshes.length) {},
      trail_meshes := (MyDriver.new).trail_meshes.take (MyDriver.new).num_particles.toNat ++
        List.replicate
          ((MyDriver.new).num_particles.toNat - (MyDriver.new).trail_meshes.length) {} }
  rw [h1, h2, h3, h4]
  exact ⟨rfl, rfl, rfl, rfl⟩

theorem inactiveSlots_initialState (M : MathFns) (sphere : List TriangleMesh) :
    inactiveSlots (initialState M sphere) = List.range 100 := by
  unfold inactiveSlots
  rw [(fields_initialState M sphere).1]
  have h : (100 : Int).toNat = 100 := rfl
  rw [h, List.filter_eq_self]
  intro i hi
  rw [List.mem_range] at hi
  unfold inactiveAt
  rw [particles_initialState, List.getElem?_replicate, if_pos hi]
  rfl

theorem emissionStep_spec (M : MathFns) (d : MyDriver) (time : ℚ) (burst_count : Int)
    (rng : Nat → Draw) (htime : time - d.last_emission_time ≥ d.emission_rate) :
    (emissionStep M d time burst_count rng).2 =
        ((inactiveSlots d).take burst_count.toNat).length ∧
      ((emissionStep M d time burst_count rng).1.emission_point = d.emission_point ∧
        (emissionStep M d time burst_count rng).1.num_particles = d.num_particles ∧
        (emissionStep M d time burst_count rng).1.emission_rate = d.emission_rate) ∧
      (emissionStep M d time burst_count rng).1.last_emission_time = time ∧
      ∀ j, (emissionStep M d time burst_count rng).1.particles[j]? =
        d.particles[j]?.map (fun p =>
          if j ∈ (inactiveSlots d).take burst_count.toNat then
            spawnParticle M d.emission_point
              (rng (List.indexOf j ((inactiveSlots d).take burst_count.toNat))) p
          else p) := by
  obtain ⟨h1, h2, h3⟩ := burstLoop_spec M time burst_count rng d.num_particles.toNat 0 0 d
  rw [← List.range_eq_range'] at h1 h3
  simp only [Nat.zero_add, Nat.sub_zero] at h1 h3
  unfold emissionStep
  rw [if_pos htime]
  exact ⟨h1, h2, rfl, h3⟩

theorem emissionStep_idle (M : MathFns) (d : MyDriver) (time : ℚ) (burst_count : Int)
    (rng : Nat → Draw) (htime : ¬ time - d.last_emission_time ≥ d.emission_rate) :
    emissionStep M d time burst_count rng = (d, 0) := by
  unfold emissionStep
  rw [if_neg htime]

theorem chosen_nodup (d : MyDriver) (q : Nat) : ((inactiveSlots d).take q).Nodup :=
  ((List.nodup_range _).sublist (List.filter_sublist _)).sublist (List.take_sublist _ _)

/-- C3. Bounded burst emission: when `time - last_emission_time >= emission_rate`, for every
pool and every drawn burst count, the emission step spawns exactly the first
`min(burst_count, number of inactive slots)` inactive slots in increasing index order (spawn
number `k` with draw `rng k`), leaves every other particle unchanged, and sets
`last_emission_time = time` whatever the number spawned. -/
theorem burst_emission_bounded (M : MathFns) (d : MyDriver) (time : ℚ) (burst_count : Int)
    (rng : Nat → Draw) (htime : time - d.last_emission_time ≥ d.emission_rate)
    (_hburst : 5 ≤ burst_count ∧ burst_count ≤ 10) :
    (emissionStep M d time burst_count rng).2 = min burst_count.toNat (inactiveSlots d).length ∧
    ((inactiveSlots d).take burst_count.toNat).length =
      min burst_count.toNat (inactiveSlots d).length ∧
    List.Pairwise (fun a b => a < b) ((inactiveSlots d).take burst_count.toNat) ∧
    (∀ (k : Nat) (hk : k < ((inactiveSlots d).take burst_count.toNat).length),
      (emissionStep M d time burst_count rng).1.particles[
          ((inactiveSlots d).take burst_count.toNat)[k]]? =
        d.particles[((inactiveSlots d).take burst_count.toNat)[k]]?.map
          (spawnParticle M d.emission_point (rng k))) ∧
    (∀ j, j ∉ (inactiveSlots d).take burst_count.toNat →
      (emissionStep M d time burst_count rng).1.particles[j]? = d.particles[j]?) ∧
    (∀ j : Nat, (∃ p : Particle, d.particles[j]? = some p ∧ p.active = true) →
      (emissionStep M d time burst_count rng).1.particles[j]? = d.particles[j]?) ∧
    (emissionStep M d time burst_count rng).1.last_emission_time = time := by
  obtain ⟨h1, -, h3, h4⟩ := emissionStep_spec M d time burst_count rng htime
  have hfree : ∀ j, j ∉ (inactiveSlots d).take burst_count.toNat →
      (emissionStep M d time burst_count rng).1.particles[j]? = d.particles[j]? := by
    intro j hj
    rw [h4 j]
    simp [hj]
  refine ⟨?_, List.length_take _ _, ?_, ?_, hfree, ?_, h3⟩
  · rw [h1, List.length_take]
  · exact ((List.pairwise_lt_range _).sublist (List.filter_sublist _)).sublist
      (List.take_sublist _ _)
  · intro k hk
    rw [h4]
    simp only [List.getElem_mem, if_true, List.indexOf_getElem (chosen_nodup d _) k hk]
  · rintro j ⟨p, hp, hact⟩
    apply hfree
    intro hj
    have hm := (List.mem_filter.mp (List.mem_of_mem_take hj)).2
    simp [inactiveAt, hp, hact] at hm

/-- Witness for C3: on the three-slot example pool at time 2 with a burst count of 5, the two
inactive slots are spawned. -/
theorem burst_emission_bounded_witness :
    ((2 : ℚ) - examplePool.last_emission_time ≥ examplePool.emission_rate ∧
      ((5 : Int) ≤ 5 ∧ (5 : Int) ≤ 10)) ∧
    (emissionStep exampleMath examplePool 2 5 (fun _ => exampleDraw)).2 =
      min (5 : Int).toNat (inactiveSlots examplePool).length :=
  ⟨⟨by norm_num [examplePool], by decide⟩,
    (burst_emission_bounded exampleMath examplePool 2 5 (fun _ => exampleDraw)
      (by norm_num [examplePool]) (by decide)).1⟩

/-- Witness for C1: the particle spawned in slot 0 right after initialisation is in the pool
and has a trail within bounds. -/
theorem trail_length_invariant_witness :
    spawnParticle exampleMath ⟨1 / 5, 13 / 10, 0⟩ exampleDraw {} ∈
        (runOps exampleMath (initialState exampleMath []) [Op.emit 0 0 exampleDraw]).particles ∧
      ((spawnParticle exampleMath ⟨1 / 5, 13 / 10, 0⟩ exampleDraw {}).trail_positions.length :
          Int) ≤ (spawnParticle exampleMath ⟨1 / 5, 13 / 10, 0⟩ exampleDraw {}).max_trail_length ∧
      (spawnParticle exampleMath ⟨1 / 5, 13 / 10, 0⟩ exampleDraw {}).max_trail_length = 15 := by
  have h : (runOps exampleMath (initialState exampleMath []) [Op.emit 0 0 exampleDraw]).particles[0]? =
      some (spawnParticle exampleMath ⟨1 / 5, 13 / 10, 0⟩ exampleDraw {}) := by
    show (Emit_Particle exampleMath (initialState exampleMath []) 0 0 exampleDraw).particles[0]? = _
    unfold Emit_Particle
    simp only
    rw [getElem?_modifyAt_self, particles_initialState, (fields_initialState _ _).2.2.2]
    rfl
  exact ⟨List.getElem?_mem h,
    (trail_length_invariant exampleMath [] [Op.emit 0 0 exampleDraw] _ (List.getElem?_mem h)).2⟩

/-! ## The emission timing scenario -/

theorem emission_scenario_counts (M : MathFns) (sphere : List TriangleMesh)
    (b0 b1 b2 b3 : Int) (g0 g1 g2 g3 : Nat → Draw) (h2 : 5 ≤ b2 ∧ b2 ≤ 10) :
    (emissionRun M (initialState M sphere)
      [(0, b0, g0), (1 / 2, b1, g1), (8 / 5, b2, g2), (17 / 10, b3, g3)]).2 =
      [0, 0, b2.toNat, 0] := by
  obtain ⟨-, hrate, hlast, -⟩ := fields_initialState M sphere
  have e0 : emissionStep M (initialState M sphere) 0 b0 g0 = (initialState M sphere, 0) := by
    apply emissionStep_idle
    rw [hrate, hlast]
    norm_num
  have e1 : emissionStep M (initialState M sphere) (1 / 2) b1 g1 =
      (initialState M sphere, 0) := by
    apply emissionStep_idle
    rw [hrate, hlast]
    norm_num
  have ht2 : (8 / 5 : ℚ) - (initialState M sphere).last_emission_time ≥
      (initialState M sphere).emission_rate := by
    rw [hrate, hlast]
    norm_num
  obtain ⟨c2, ⟨-, -, r2⟩, l2, -⟩ := emissionStep_spec M (initialState M sphere) (8 / 5) b2 g2 ht2
  rw [inactiveSlots_initialState, List.length_take, List.length_range] at c2
  have c2' : (emissionStep M (initialState M sphere) (8 / 5) b2 g2).2 = b2.toNat := by
    rw [c2]
    omega
  have e3 : emissionStep M (emissionStep M (initialState M sphere) (8 / 5) b2 g2).1
      (17 / 10) b3 g3 = ((emissionStep M (initialState M sphere) (8 / 5) b2 g2).1, 0) := by
    apply emissionStep_idle
    rw [r2, l2, hrate]
    norm_num
  simp only [emissionRun, e0, e1, e3, c2']

/-- C2 (amended). Emission timing scenario: from the initial driver state, running the emission
step at times 0.0, 0.5, 1.6, 1.7 in that order spawns nothing at 0.0, 0.5 and 1.7 and spawns a
burst of `burst_count` particles (at least one) at 1.6 only. -/
theorem emission_timing (M : MathFns) (sphere : List TriangleMesh)
    (b0 b1 b2 b3 : Int) (g0 g1 g2 g3 : Nat → Draw) (h2 : 5 ≤ b2 ∧ b2 ≤ 10) :
    (emissionRun M (initialState M sphere)
      [(0, b0, g0), (1 / 2, b1, g1), (8 / 5, b2, g2), (17 / 10, b3, g3)]).2 =
      [0, 0, b2.toNat, 0] ∧ 1 ≤ b2.toNat :=
  ⟨emission_scenario_counts M sphere b0 b1 b2 b3 g0 g1 g2 g3 h2, by omega⟩

/-- Witness for C2 (amended): burst counts 5, 7, 5, 10 and the example draws. -/
theorem emission_timing_witness :
    ((5 : Int) ≤ 5 ∧ (5 : Int) ≤ 10) ∧
    (emissionRun exampleMath (initialState exampleMath [])
      [(0, 5, fun _ => exampleDraw), (1 / 2, 7, fun _ => exampleDraw),
        (8 / 5, 5, fun _ => exampleDraw), (17 / 10, 10, fun _ => exampleDraw)]).2 =
      [0, 0, 5, 0] :=
  ⟨by decide,
    (emission_timing exampleMath [] 5 7 5 10 (fun _ => exampleDraw) (fun _ => exampleDraw)
      (fun _ => exampleDraw) (fun _ => exampleDraw) (by decide)).1⟩

/-- Counterexample to C2 as stated: from the initial driver state with burst counts of 5, the
run at times 0.0, 0.5, 1.6, 1.7 does not spawn at least one particle at time 0.0 (and at 1.6)
with nothing at 0.5 and 1.7, because nothing is spawned at time 0.0. -/
theorem emission_timing_counterexample :
    ¬ ∃ c0 c2 : Nat, 1 ≤ c0 ∧ 1 ≤ c2 ∧
      (emissionRun exampleMath (initialState exampleMath [])
        [(0, 5, fun _ => exampleDraw), (1 / 2, 5, fun _ => exampleDraw),
          (8 / 5, 5, fun _ => exampleDraw), (17 / 10, 5, fun _ => exampleDraw)]).2 =
        [c0, 0, c2, 0] := by
  rintro ⟨c0, c2, h0, -, h⟩
  rw [emission_scenario_counts exampleMath [] 5 5 5 5 _ _ _ _ (by decide)] at h
  simp only [List.cons.injEq] at h
  omega

/-! ## The per-frame update, slot by slot -/

theorem getElem?_set_self_of_some {α : Type} (l : List α) (i : Nat) (a b : α)
    (h : l[i]? = some a) : (l.set i b)[i]? = some b := by
  have hi : i < l.length := by
    by_contra hc
    rw [List.getElem?_eq_none (by omega)] at h
    cases h
  simp [List.getElem?_set, hi]

theorem slotAt_updateStep_self (M : MathFns) (dt : ℚ) (d : MyDriver) (i : Nat) :
    slotAt (updateStep M dt d i) i = stepSlot M dt (slotAt d i) := by
  unfold updateStep slotAt
  cases hp : d.particles[i]? with
  | none => simp [stepSlot, hp]
  | some p =>
    cases hact : p.active with
    | false =>
      simp only [stepSlot, hp, hact, stepParticle, Bool.not_false, if_true]
      generalize d.particle_meshes[i]? = a
      generalize d.trail_meshes[i]? = b
      cases a <;> cases b <;> simp [stepParticleMesh, stepTrailMesh, hact]
    | true =>
      by_cases hlife : p.lifetime + dt ≥ p.max_lifetime
      · simp only [stepSlot, hact, hlife, stepParticle, getElem?_modifyAt_self,
          getElem?_set_self_of_some _ _ _ _ hp, Bool.not_true, if_true, if_false, Bool.false_eq_true]
        generalize d.particle_meshes[i]? = a
        generalize d.trail_meshes[i]? = b
        cases a <;> cases b <;> simp [stepParticleMesh, stepTrailMesh, hact, hlife]
      · simp only [stepSlot, hact, hlife, stepParticle, Update_Trail_Mesh,
          getElem?_modifyAt_self, getElem?_set_self_of_some _ _ _ _ hp, Bool.not_true, if_false,
          Bool.false_eq_true]
        generalize d.particle_meshes[i]? = a
        generalize d.trail_meshes[i]? = b
        cases a <;> cases b <;> simp [stepParticleMesh, stepTrailMesh, hact, hlife]

theorem slotAt_updateStep_ne (M : MathFns) (dt : ℚ) (d : MyDriver) {i j : Nat} (h : i ≠ j) :
    slotAt (updateStep M dt d i) j = slotAt d j := by
  unfold updateStep slotAt
  cases hp : d.particles[i]? with
  | none => simp
  | some p =>
    cases hact : p.active with
    | false => simp [hact]
    | true =>
      by_cases hlife : p.lifetime + dt ≥ p.max_lifetime
      · simp [hact, hlife, getElem?_modifyAt_ne _ h, List.getElem?_set, h]
      · simp [hact, hlife, Update_Trail_Mesh, getElem?_set_self_of_some _ _ _ _ hp,
          getElem?_modifyAt_ne _ h, List.getElem?_set, h]

theorem fields_updateStep (M : MathFns) (dt : ℚ) (d : MyDriver) (i : Nat) :
    (updateStep M dt d i).num_particles = d.num_particles ∧
    (updateStep M dt d i).emission_point = d.emission_point ∧
    (updateStep M dt d i).emission_rate = d.emission_rate ∧
    (updateStep M dt d i).last_emission_time = d.last_emission_time := by
  unfold updateStep
  cases hp : d.particles[i]? with
  | none => simp
  | some p =>
    cases hact : p.active with
    | false => simp [hact]
    | true =>
      by_cases hlife : p.lifetime + dt ≥ p.max_lifetime
      · simp [hact, hlife]
      · simp [hact, hlife, Update_Trail_Mesh, getElem?_set_self_of_some _ _ _ _ hp]

theorem slotAt_foldl_updateStep (M : MathFns) (dt : ℚ) (j : Nat) (idx : List Nat) :
    ∀ d : MyDriver, idx.Nodup →
      slotAt (idx.foldl (updateStep M dt) d) j =
        if j ∈ idx then stepSlot M dt (slotAt d j) else slotAt d j := by
  induction idx with
  | nil => intro d _; simp
  | cons i rest ih =>
    intro d hnd
    rw [List.nodup_cons] at hnd
    rw [List.foldl_cons, ih _ hnd.2]
    by_cases hij : i = j
    · subst hij
      simp [hnd.1, slotAt_updateStep_self]
    · have hji : j ≠ i := fun h => hij h.symm
      simp [hji, slotAt_updateStep_ne M dt d hij]

theorem fields_foldl_updateStep (M : MathFns) (dt : ℚ) (idx : List Nat) :
    ∀ d : MyDriver,
      (idx.foldl (updateStep M dt) d).num_particles = d.num_particles ∧
      (idx.foldl (updateStep M dt) d).emission_point = d.emission_point ∧
      (idx.foldl (updateStep M dt) d).emission_rate = d.emission_rate ∧
      (idx.foldl (updateStep M dt) d).last_emission_time = d.last_emission_time := by
  induction idx with
  | nil => intro d; simp
  | cons i rest ih =>
    intro d
    rw [List.foldl_cons]
    obtain ⟨h1, h2, h3, h4⟩ := ih (updateStep M dt d i)
    obtain ⟨k1, k2, k3, k4⟩ := fields_updateStep M dt d i
    exact ⟨h1.trans k1, h2.trans k2, h3.trans k3, h4.trans k4⟩

/-- The function `Update_Particles` acts on every slot below `num_particles` independently, by `stepSlot`, and
leaves the other slots alone. -/
theorem slotAt_Update_Particles (M : MathFns) (d : MyDriver) (dt : ℚ) (j : Nat) :
    slotAt (Update_Particles M d dt) j =
      if j < d.num_particles.toNat then stepSlot M dt (slotAt d j) else slotAt d j := by
  unfold Update_Particles
  rw [slotAt_foldl_updateStep M dt j _ d (List.nodup_range _)]
  simp only [List.mem_range]

theorem fields_Update_Particles (M : MathFns) (d : MyDriver) (dt : ℚ) :
    (Update_Particles M d dt).num_particles = d.num_particles ∧
    (Update_Particles M d dt).emission_point = d.emission_point ∧
    (Update_Particles M d dt).emission_rate = d.emission_rate ∧
    (Update_Particles M d dt).last_emission_time = d.last_emission_time :=
  fields_foldl_updateStep M dt _ d

theorem particles_Update_Particles_getElem? (M : MathFns) (d : MyDriver) (dt : ℚ) (j : Nat) :
    (Update_Particles M d dt).particles[j]? =
      if j < d.num_particles.toNat then d.particles[j]?.map (stepParticle dt)
      else d.particles[j]? := by
  have h := congrArg Prod.fst (slotAt_Update_Particles M d dt j)
  by_cases hj : j < d.num_particles.toNat
  · rw [if_pos hj] at h
    rw [if_pos hj]
    simp only [slotAt] at h
    rw [h]
    cases d.particles[j]? <;> rfl
  · rw [if_neg hj] at h
    rw [if_neg hj]
    exact h

/-! ## Recycling -/

/-- C4. Recycling without partial integration: for an active particle in slot `i` below
`num_particles` and a `dt` with `lifetime + dt >= max_lifetime`, `Update_Particles(dt)` makes
the particle inactive, leaves its position, velocity, trail and maximal lifetime as they were,
advances its lifetime by `dt`, and marks its particle mesh and its trail mesh invisible
(changing nothing else of them). -/
theorem recycle_without_integration (M : MathFns) (d : MyDriver) (dt : ℚ) (i : Nat)
    (p : Particle) (hp : d.particles[i]? = some p) (hi : i < d.num_particles.toNat)
    (hact : p.active = true) (hlife : p.lifetime + dt ≥ p.max_lifetime) :
    (∃ q : Particle, (Update_Particles M d dt).particles[i]? = some q ∧
      q.active = false ∧ q.position = p.position ∧ q.velocity = p.velocity ∧
      q.trail_positions = p.trail_positions ∧ q.lifetime = p.lifetime + dt ∧
      q.max_lifetime = p.max_lifetime ∧ q.max_trail_length = p.max_trail_length) ∧
    (∀ m : OpenGLTriangleMesh, d.particle_meshes[i]? = some m →
      (Update_Particles M d dt).particle_meshes[i]? = some { m with visible := false }) ∧
    (∀ m : OpenGLTriangleMesh, d.trail_meshes[i]? = some m →
      (Update_Particles M d dt).trail_meshes[i]? = some { m with visible := false }) := by
  have h := slotAt_Update_Particles M d dt i
  rw [if_pos hi] at h
  simp only [slotAt, hp, stepSlot, Prod.mk.injEq] at h
  obtain ⟨h1, h2, h3⟩ := h
  refine ⟨⟨_, h1, ?_⟩, ?_, ?_⟩
  · simp [stepParticle, hact, hlife]
  · intro m hm
    rw [h2, hm]
    simp [stepParticleMesh, hact, hlife]
  · intro m hm
    rw [h3, hm]
    simp [stepTrailMesh, hact, hlife]

/-- Witness for C4: the active particle of the example pool (lifetime 0, maximal lifetime 2) is
recycled by an update with `dt = 2`. -/
theorem recycle_without_integration_witness :
    (examplePool.particles[0]? = some { active := true, trail_positions := [⟨1 / 5, 13 / 10, 0⟩] } ∧
      0 < examplePool.num_particles.toNat) ∧
    ∃ q : Particle, (Update_Particles exampleMath examplePool 2).particles[0]? = some q ∧
      q.active = false ∧ q.position = ⟨0, 0, 0⟩ ∧ q.velocity = ⟨0, 0, 0⟩ ∧
      q.trail_positions = [⟨1 / 5, 13 / 10, 0⟩] ∧ q.lifetime = 0 + 2 ∧
      q.max_lifetime = 2 ∧ q.max_trail_length = 15 :=
  ⟨⟨rfl, by decide⟩,
    (recycle_without_integration exampleMath examplePool 2 0
      { active := true, trail_positions := [⟨1 / 5, 13 / 10, 0⟩] } rfl (by decide) rfl
      (by norm_num)).1⟩

/-! ## Spawning -/

/-- C5. Spawn postcondition: for every index inside the pool and every outcome of the random
draws within their ranges, after `Emit_Particle(index, time)` the particle is active with
lifetime 0, sits at the emission point, has the one-element trail `[emission_point]`, has a
maximal lifetime in `[1.5, 2.5]`, and every other particle is unchanged. -/
theorem spawn_postcondition (M : MathFns) (d : MyDriver) (index : Nat) (time : ℚ) (r : Draw)
    (hidx : index < d.particles.length) (hr : r.inRange) :
    (∃ q : Particle, (Emit_Particle M d index time r).particles[index]? = some q ∧
      q.active = true ∧ q.lifetime = 0 ∧ q.position = d.emission_point ∧
      q.trail_positions = [d.emission_point] ∧
      3 / 2 ≤ q.max_lifetime ∧ q.max_lifetime ≤ 5 / 2) ∧
    (∀ j : Nat, j ≠ index →
      (Emit_Particle M d index time r).particles[j]? = d.particles[j]?) ∧
    (Emit_Particle M d index time r).particles.length = d.particles.length := by
  refine ⟨⟨spawnParticle M d.emission_point r (d.particles.get ⟨index, hidx⟩), ?_, rfl, rfl,
    rfl, rfl, hr.1.1, le_of_lt hr.1.2⟩, ?_, ?_⟩
  · rw [particles_Emit_Particle_getElem?, if_pos rfl, List.getElem?_eq_getElem hidx]
    rfl
  · intro j hj
    rw [particles_Emit_Particle_getElem?, if_neg (fun h => hj h.symm)]
  · exact length_modifyAt _ _ _

/-- Witness for C5: spawning slot 1 of the example pool with the example draw. -/
theorem spawn_postcondition_witness :
    (1 < examplePool.particles.length ∧ exampleDraw.inRange) ∧
    ∀ j : Nat, j ≠ 1 →
      (Emit_Particle exampleMath examplePool 1 0 exampleDraw).particles[j]? =
        examplePool.particles[j]? :=
  ⟨⟨by decide, by norm_num [Draw.inRange, exampleDraw, M_PI]⟩,
    (spawn_postcondition exampleMath examplePool 1 0 exampleDraw (by decide)
      (by norm_num [Draw.inRange, exampleDraw, M_PI])).2.1⟩

/-! ## The lifespan scenario -/

theorem stepParticle_alive (dt : ℚ) (p : Particle) (hact : p.active = true)
    (hlife : p.lifetime + dt < p.max_lifetime) :
    (stepParticle dt p).active = true ∧ (stepParticle dt p).lifetime = p.lifetime + dt ∧
      (stepParticle dt p).max_lifetime = p.max_lifetime := by
  have h : ¬ p.lifetime + dt ≥ p.max_lifetime := not_le.mpr hlife
  simp [stepParticle, hact, h, integrate]

theorem stepParticle_recycled (dt : ℚ) (p : Particle) (hact : p.active = true)
    (hlife : p.lifetime + dt ≥ p.max_lifetime) :
    (stepParticle dt p).active = false ∧ (stepParticle dt p).lifetime = p.lifetime + dt := by
  simp [stepParticle, hact, hlife]

theorem particles_Update_Particles_single (M : MathFns) (d : MyDriver) (dt : ℚ) (p : Particle)
    (hp : d.particles = [p]) (hn : d.num_particles = 1) :
    (Update_Particles M d dt).particles = [stepParticle dt p] := by
  apply List.ext_getElem?
  intro j
  rw [particles_Update_Particles_getElem?, hp, hn]
  cases j with
  | zero => simp
  | succ k => simp

theorem lifespan_scenario_alive (M : MathFns) (d : MyDriver) (p : Particle)
    (hp : d.particles = [p]) (hn : d.num_particles = 1) (hact : p.active = true)
    (hlife : p.lifetime = 0) (hmax : p.max_lifetime = 2) :
    ∀ k : Nat, k ≤ 19 →
      ((fun s => Update_Particles M s (1 / 10))^[k] d).num_particles = 1 ∧
      ∃ q : Particle, ((fun s => Update_Particles M s (1 / 10))^[k] d).particles = [q] ∧
        q.active = true ∧ q.lifetime = (k : ℚ) / 10 ∧ q.max_lifetime = 2 := by
  intro k
  induction k with
  | zero =>
    intro _
    exact ⟨hn, p, hp, hact, by simp [hlife], hmax⟩
  | succ k ih =>
    intro hk
    obtain ⟨hn', q, hq, hqa, hql, hqm⟩ := ih (by omega)
    have hk' : (k : ℚ) ≤ 18 := by exact_mod_cast (by omega : k ≤ 18)
    have hlt : q.lifetime + 1 / 10 < q.max_lifetime := by
      rw [hql, hqm]
      linarith
    obtain ⟨s1, s2, s3⟩ := stepParticle_alive (1 / 10) q hqa hlt
    rw [Function.iterate_succ_apply']
    refine ⟨?_, stepParticle (1 / 10) q, ?_, s1, ?_, s3.trans hqm⟩
    · rw [(fields_Update_Particles M _ _).1, hn']
    · exact particles_Update_Particles_single M _ _ q hq hn'
    · rw [s2, hql]
      push_cast
      ring

/-- C6. Lifespan scenario: a pool of one particle that is active with lifetime 0, velocity
`(0, 5, 0)` and maximal lifetime 2.0 holds, after 20 successive calls of `Update_Particles` with
`dt = 0.1`, an inactive particle whose accumulated lifetime is 2.0; after 19 calls the particle
is still active. -/
theorem lifespan_scenario (M : MathFns) (d : MyDriver) (p : Particle)
    (hp : d.particles = [p]) (hn : d.num_particles = 1) (hact : p.active = true)
    (hlife : p.lifetime = 0) (_hvel : p.velocity = ⟨0, 5, 0⟩) (hmax : p.max_lifetime = 2) :
    (∃ q : Particle, ((fun s => Update_Particles M s (1 / 10))^[20] d).particles = [q] ∧
      q.active = false ∧ q.lifetime = 2) ∧
    (∃ q : Particle, ((fun s => Update_Particles M s (1 / 10))^[19] d).particles = [q] ∧
      q.active = true) := by
  obtain ⟨hn', q, hq, hqa, hql, hqm⟩ := lifespan_scenario_alive M d p hp hn hact hlife hmax 19
    (le_refl _)
  refine ⟨⟨stepParticle (1 / 10) q, ?_, ?_⟩, ⟨q, hq, hqa⟩⟩
  · rw [Function.iterate_succ_apply']
    exact particles_Update_Particles_single M _ _ q hq hn'
  · have hge : q.lifetime + 1 / 10 ≥ q.max_lifetime := by
      rw [hql, hqm]
      norm_num
    obtain ⟨r1, r2⟩ := stepParticle_recycled (1 / 10) q hqa hge
    refine ⟨r1, ?_⟩
    rw [r2, hql]
    norm_num

/-- Witness for C6: the scenario pool, whose particle starts at the emission point. -/
theorem lifespan_scenario_witness :
    (scenarioPool.num_particles = 1 ∧
      scenarioPool.particles.map (fun q => (q.active, q.lifetime, q.velocity, q.max_lifetime)) =
        [(true, 0, ⟨0, 5, 0⟩, 2)]) ∧
    ∃ q : Particle,
      ((fun s => Update_Particles exampleMath s (1 / 10))^[20] scenarioPool).particles = [q] ∧
        q.active = false ∧ q.lifetime = 2 :=
  ⟨⟨rfl, rfl⟩, (lifespan_scenario exampleMath scenarioPool _ rfl rfl rfl rfl rfl rfl).1⟩

/-! ## Smooth normals -/

theorem length_vaddAt (l : List Vec3) (k : Int) (f : Vec3) : (vaddAt l k f).length = l.length := by
  unfold vaddAt
  split
  · split <;> simp
  · rfl

theorem length_accumulateTri (vertices normals : List Vec3) (t : Vec3i) :
    (accumulateTri vertices normals t).length = normals.length := by
  unfold accumulateTri
  simp only [length_vaddAt]

theorem length_foldl_accumulateTri (vertices : List Vec3) (triangles : List Vec3i) :
    ∀ normals : List Vec3,
      (triangles.foldl (accumulateTri vertices) normals).length = normals.length := by
  induction triangles with
  | nil => intro normals; rfl
  | cons t rest ih =>
    intro normals
    rw [List.foldl_cons, ih, length_accumulateTri]

theorem length_vertexNormals (M : MathFns) (vertices : List Vec3) (triangles : List Vec3i) :
    (vertexNormals M vertices triangles).length = vertices.length := by
  unfold vertexNormals accumulateNormals
  rw [List.length_map, length_foldl_accumulateTri, List.length_replicate]

/-! ## Smooth normals over an ordered field -/

theorem getElem?_vaddAtK {K : Type} [LinearOrderedField K] (l : List (Vec3K K)) (k : Int)
    (f : Vec3K K) (v : Nat) :
    (vaddAtK l k f)[v]? = l[v]?.map (fun a => if k = (v : Int) then Vec3K.add a f else a) := by
  unfold vaddAtK
  by_cases hk : 0 ≤ k
  · rw [if_pos hk]
    by_cases hkv : k = (v : Int)
    · subst hkv
      simp only [Int.toNat_ofNat, if_true]
      cases h : l[v]? with
      | none =>
        simp only [Option.map_none']
        exact h
      | some n => simp [getElem?_set_self_of_some _ _ _ _ h]
    · have hne : k.toNat ≠ v := by omega
      simp only [hkv, if_false]
      cases h : l[k.toNat]? with
      | none => simp
      | some n => simp [List.getElem?_set, hne]
  · have hkv : k ≠ (v : Int) := by omega
    simp [hk, hkv]

theorem length_vaddAtK {K : Type} [LinearOrderedField K] (l : List (Vec3K K)) (k : Int)
    (f : Vec3K K) : (vaddAtK l k f).length = l.length := by
  unfold vaddAtK
  split
  · split <;> simp
  · rfl

theorem getElem?_accumulateTriK {K : Type} [LinearOrderedField K]
    (vertices normals : List (Vec3K K)) (t : Vec3i) (v : Nat) :
    (accumulateTriK vertices normals t)[v]? =
      normals[v]?.map (fun a =>
        (([t.i0, t.i1, t.i2].filter (fun c => c = (v : Int))).map
          (fun _ => faceNormalK vertices t)).foldl Vec3K.add a) := by
  unfold accumulateTriK
  simp only [getElem?_vaddAtK, Option.map_map]
  congr 1
  funext a
  by_cases h0 : t.i0 = (v : Int) <;> by_cases h1 : t.i1 = (v : Int) <;>
    by_cases h2 : t.i2 = (v : Int) <;>
    simp [List.filter_cons, h0, h1, h2]

theorem getElem?_foldl_accumulateTriK {K : Type} [LinearOrderedField K]
    (vertices : List (Vec3K K)) (v : Nat) (triangles : List Vec3i) :
    ∀ normals : List (Vec3K K),
      (triangles.foldl (accumulateTriK vertices) normals)[v]? =
        normals[v]?.map (fun a =>
          (triangles.flatMap (fun t =>
            ([t.i0, t.i1, t.i2].filter (fun c => c = (v : Int))).map
              (fun _ => faceNormalK vertices t))).foldl Vec3K.add a) := by
  induction triangles with
  | nil => intro normals; simp
  | cons t rest ih =>
    intro normals
    rw [List.foldl_cons, ih, getElem?_accumulateTriK, Option.map_map]
    congr 1
    funext a
    simp [List.flatMap_cons, List.foldl_append]

theorem length_foldl_accumulateTriK {K : Type} [LinearOrderedField K]
    (vertices : List (Vec3K K)) (triangles : List Vec3i) :
    ∀ normals : List (Vec3K K),
      (triangles.foldl (accumulateTriK vertices) normals).length = normals.length := by
  induction triangles with
  | nil => intro normals; rfl
  | cons t rest ih =>
    intro normals
    rw [List.foldl_cons, ih]
    unfold accumulateTriK
    simp only [length_vaddAtK]

theorem vgetK_valid {K : Type} [LinearOrderedField K] (vertices : List (Vec3K K)) (k : Int)
    (hk : 0 ≤ k ∧ k < (vertices.length : Int)) :
    vertices[k.toNat]? = some (vgetK vertices k) := by
  have hlt : k.toNat < vertices.length := by omega
  unfold vgetK
  rw [if_pos hk.1, List.getD_eq_getElem _ _ hlt, List.getElem?_eq_getElem hlt]

/-- On a triangle with valid indices the face normal of the code is the reference face
normal. -/
theorem faceNormalK_eq_reference {K : Type} [LinearOrderedField K] (vertices : List (Vec3K K))
    (t : Vec3i)
    (ht : (0 ≤ t.i0 ∧ t.i0 < (vertices.length : Int)) ∧
      (0 ≤ t.i1 ∧ t.i1 < (vertices.length : Int)) ∧
      (0 ≤ t.i2 ∧ t.i2 < (vertices.length : Int))) :
    faceNormalK vertices t = referenceFaceNormal vertices t := by
  unfold referenceFaceNormal
  rw [vgetK_valid vertices t.i0 ht.1, vgetK_valid vertices t.i1 ht.2.1,
    vgetK_valid vertices t.i2 ht.2.2]
  rfl

theorem foldl_add_eq_sum {K : Type} [LinearOrderedField K] (l : List (Vec3K K)) :
    ∀ a : Vec3K K, l.foldl Vec3K.add a =
      ⟨a.x + (l.map (fun n => n.x)).sum, a.y + (l.map (fun n => n.y)).sum,
        a.z + (l.map (fun n => n.z)).sum⟩ := by
  induction l with
  | nil => intro a; simp
  | cons b rest ih =>
    intro a
    rw [List.foldl_cons, ih]
    simp [Vec3K.add, add_assoc]

/-- The accumulation loop computes the reference accumulated normal of every vertex. -/
theorem getElem?_accumulateNormalsK {K : Type} [LinearOrderedField K]
    (vertices : List (Vec3K K)) (triangles : List Vec3i)
    (hvalid : TrianglesValid vertices triangles) (v : Nat) (hv : v < vertices.length) :
    (accumulateNormalsK vertices triangles)[v]? =
      some (referenceAccumulatedNormal vertices triangles v) := by
  have hcongr : triangles.flatMap (fun t =>
      ([t.i0, t.i1, t.i2].filter (fun c => c = (v : Int))).map
        (fun _ => faceNormalK vertices t)) = referenceContributions vertices triangles v := by
    unfold referenceContributions
    apply List.flatMap_congr
    intro t ht
    rw [faceNormalK_eq_reference vertices t (hvalid t ht)]
  unfold accumulateNormalsK
  rw [getElem?_foldl_accumulateTriK, List.getElem?_replicate, if_pos hv, hcongr,
    Option.map_some', foldl_add_eq_sum]
  simp [Vec3K.zero, referenceAccumulatedNormal]

theorem length_vertexNormalsK {K : Type} [LinearOrderedField K] (M : MathFnsK K)
    (vertices : List (Vec3K K)) (triangles : List Vec3i) :
    (vertexNormalsK M vertices triangles).length = vertices.length := by
  unfold vertexNormalsK accumulateNormalsK
  rw [List.length_map, length_foldl_accumulateTriK, List.length_replicate]

theorem getElem?_vertexNormalsK {K : Type} [LinearOrderedField K] (M : MathFnsK K)
    (vertices : List (Vec3K K)) (triangles : List Vec3i)
    (hvalid : TrianglesValid vertices triangles) (v : Nat) (hv : v < vertices.length) :
    (vertexNormalsK M vertices triangles)[v]? =
      some (normalizeOrFallbackK M (referenceAccumulatedNormal vertices triangles v)) := by
  unfold vertexNormalsK
  rw [List.getElem?_map, getElem?_accumulateNormalsK vertices triangles hvalid v hv]
  rfl

/-! ## The rational normal computation as an instance -/

theorem vget_toK (l : List Vec3) (k : Int) :
    Vec3.toK (vget l k) = vgetK (l.map Vec3.toK) k := by
  unfold vget vgetK
  split
  · exact (List.getD_map l Vec3.zero Vec3.toK).symm
  · rfl

theorem faceNormal_toK (vertices : List Vec3) (t : Vec3i) :
    Vec3.toK (faceNormal vertices t) = faceNormalK (vertices.map Vec3.toK) t := by
  unfold faceNormal faceNormalK
  simp only [← vget_toK]
  rfl

theorem vaddAt_toK (l : List Vec3) (k : Int) (f : Vec3) :
    (vaddAt l k f).map Vec3.toK = vaddAtK (l.map Vec3.toK) k (Vec3.toK f) := by
  unfold vaddAt vaddAtK
  by_cases hk : 0 ≤ k
  · rw [if_pos hk, if_pos hk, List.getElem?_map]
    cases l[k.toNat]? with
    | none => rfl
    | some n =>
      simp only [Option.map_some', List.map_set]
      rfl
  · rw [if_neg hk, if_neg hk]

theorem accumulateTri_toK (vertices normals : List Vec3) (t : Vec3i) :
    (accumulateTri vertices normals t).map Vec3.toK =
      accumulateTriK (vertices.map Vec3.toK) (normals.map Vec3.toK) t := by
  unfold accumulateTri accumulateTriK
  simp only [vaddAt_toK, faceNormal_toK]

theorem foldl_accumulateTri_toK (vertices : List Vec3) (triangles : List Vec3i) :
    ∀ normals : List Vec3,
      (triangles.foldl (accumulateTri vertices) normals).map Vec3.toK =
        triangles.foldl (accumulateTriK (vertices.map Vec3.toK)) (normals.map Vec3.toK) := by
  induction triangles with
  | nil => intro normals; rfl
  | cons t rest ih =>
    intro normals
    rw [List.foldl_cons, List.foldl_cons, ih, accumulateTri_toK]

theorem normalizeOrFallback_toK (M : MathFns) (n : Vec3) :
    Vec3.toK (normalizeOrFallback M n) = normalizeOrFallbackK M.toK (Vec3.toK n) := by
  unfold normalizeOrFallback normalizeOrFallbackK
  simp only [apply_ite Vec3.toK]
  rfl

/-- The rational normal computation is the instance at `K = ℚ` of the computation over an
ordered field. -/
theorem vertexNormals_toK (M : MathFns) (vertices : List Vec3) (triangles : List Vec3i) :
    (vertexNormals M vertices triangles).map Vec3.toK =
      vertexNormalsK M.toK (vertices.map Vec3.toK) triangles := by
  have hrep : List.replicate vertices.length (Vec3K.zero : Vec3K ℚ) =
      (List.replicate vertices.length Vec3.zero).map Vec3.toK := by
    rw [List.map_replicate]
    rfl
  unfold vertexNormals vertexNormalsK accumulateNormals accumulateNormalsK
  rw [List.length_map, hrep, ← foldl_accumulateTri_toK, List.map_map, List.map_map]
  apply List.map_congr_left
  intro a _
  exact normalizeOrFallback_toK M a

/-! ## Unit length of the normals -/

theorem Vec3K.dot_self_nonneg {K : Type} [LinearOrderedField K] (a : Vec3K K) :
    0 ≤ Vec3K.dot a a := by
  unfold Vec3K.dot
  nlinarith [mul_self_nonneg a.x, mul_self_nonneg a.y, mul_self_nonneg a.z]

theorem Vec3K.dot_sdiv {K : Type} [LinearOrderedField K] (a : Vec3K K) (s : K) :
    Vec3K.dot (Vec3K.sdiv a s) (Vec3K.sdiv a s) = Vec3K.dot a a / (s * s) := by
  unfold Vec3K.dot Vec3K.sdiv
  by_cases hs : s = 0
  · subst hs
    simp
  · field_simp

theorem normalizeOrFallbackK_unit {K : Type} [LinearOrderedField K] (M : MathFnsK K)
    (a : Vec3K K)
    (hsqrt : M.sqrt (Vec3K.dot a a) * M.sqrt (Vec3K.dot a a) = Vec3K.dot a a) :
    Vec3K.dot (normalizeOrFallbackK M a) (normalizeOrFallbackK M a) = 1 ∨
      normalizeOrFallbackK M a = ⟨0, 1, 0⟩ := by
  unfold normalizeOrFallbackK Vec3K.norm
  simp only
  split
  · rename_i hpos
    left
    have hne : M.sqrt (Vec3K.dot a a) ≠ 0 := by
      intro h0
      rw [h0] at hpos
      norm_num at hpos
    rw [Vec3K.dot_sdiv, div_eq_one_iff_eq (mul_ne_zero hne hne)]
    exact hsqrt.symm
  · right
    rfl

theorem referenceAccumulatedNormal_unused {K : Type} [LinearOrderedField K]
    (vertices : List (Vec3K K)) (triangles : List Vec3i) (v : Nat)
    (hun : ∀ t ∈ triangles, t.i0 ≠ (v : Int) ∧ t.i1 ≠ (v : Int) ∧ t.i2 ≠ (v : Int)) :
    referenceAccumulatedNormal vertices triangles v = ⟨0, 0, 0⟩ := by
  have h : referenceContributions vertices triangles v = [] := by
    unfold referenceContributions
    rw [List.flatMap_eq_nil_iff]
    intro t ht
    obtain ⟨h0, h1, h2⟩ := hun t ht
    simp [List.filter_cons, h0, h1, h2]
  unfold referenceAccumulatedNormal
  rw [h]
  simp

/-- The normals of the example mesh object: the triangle in the plane `z = 0`, listed
counter-clockwise, gets `(0, 0, 1)` at its three corners and the unused vertex gets the
fallback. -/
theorem normals_exampleMeshObject :
    (Compute_Vertex_Normals exampleMath exampleMeshObject).mesh.normals =
      [⟨0, 0, 1⟩, ⟨0, 0, 1⟩, ⟨0, 0, 1⟩, ⟨0, 1, 0⟩] := by
  simp [Compute_Vertex_Normals, vertexNormals, accumulateNormals, accumulateTri, vaddAt,
    faceNormal, vget, normalizeOrFallback, exampleMeshObject, exampleMath, Vec3.norm, Vec3.dot,
    Vec3.add, Vec3.cross, Vec3.sub, Vec3.sdiv, Vec3.zero]
  norm_num

/-- C7. Smooth-normal reference definition: for all vertices and triangles whose triangle
indices are valid vertex indices, over any ordered field of scalars, the normals computed by
`Compute_Vertex_Normals` are as many as the vertices, and entry `v` is `A_v / |A_v|` when
`|A_v| > 1e-6` and the fallback `(0, 1, 0)` otherwise, `A_v` being the sum over all triangles
`t` and corners `c` with `t[c] = v` of the face normal `(v1 - v0) x (v2 - v0)` of `t`.  Where
the square root is exact every normal has unit length or is the fallback, and where the square
root of 0 is 0 a vertex used by no triangle gets the fallback.  The rational
`Compute_Vertex_Normals` changes only the normals of the mesh object and is the instance of
this computation at `K = ℚ`. -/
theorem smooth_normals_reference {K : Type} [LinearOrderedField K] (M : MathFnsK K)
    (vertices : List (Vec3K K)) (triangles : List Vec3i)
    (hvalid : TrianglesValid vertices triangles) :
    (vertexNormalsK M vertices triangles).length = vertices.length ∧
    (∀ v : Nat, v < vertices.length →
      (vertexNormalsK M vertices triangles)[v]? =
        some (if Vec3K.norm M (referenceAccumulatedNormal vertices triangles v) > 1 / 1000000
          then Vec3K.sdiv (referenceAccumulatedNormal vertices triangles v)
            (Vec3K.norm M (referenceAccumulatedNormal vertices triangles v))
          else ⟨0, 1, 0⟩)) ∧
    ((∀ x : K, 0 ≤ x → M.sqrt x * M.sqrt x = x) →
      ∀ n ∈ vertexNormalsK M vertices triangles, Vec3K.dot n n = 1 ∨ n = ⟨0, 1, 0⟩) ∧
    (M.sqrt 0 = 0 →
      ∀ v : Nat, v < vertices.length →
        (∀ t ∈ triangles, t.i0 ≠ (v : Int) ∧ t.i1 ≠ (v : Int) ∧ t.i2 ≠ (v : Int)) →
        (vertexNormalsK M vertices triangles)[v]? = some ⟨0, 1, 0⟩) ∧
    (∀ (Mq : MathFns) (mesh_obj : OpenGLTriangleMesh),
      (Compute_Vertex_Normals Mq mesh_obj).mesh.vertices = mesh_obj.mesh.vertices ∧
      (Compute_Vertex_Normals Mq mesh_obj).mesh.elements = mesh_obj.mesh.elements ∧
      (Compute_Vertex_Normals Mq mesh_obj).visible = mesh_obj.visible ∧
      (Compute_Vertex_Normals Mq mesh_obj).mesh.normals.length =
        mesh_obj.mesh.vertices.length ∧
      (Compute_Vertex_Normals Mq mesh_obj).mesh.normals.map Vec3.toK =
        vertexNormalsK Mq.toK (mesh_obj.mesh.vertices.map Vec3.toK) mesh_obj.mesh.elements) := by
  have hlen := length_vertexNormalsK M vertices triangles
  refine ⟨hlen, ?_, ?_, ?_, ?_⟩
  · intro v hv
    exact getElem?_vertexNormalsK M vertices triangles hvalid v hv
  · intro hsqrt n hn
    obtain ⟨v, hv, hnv⟩ := List.getElem_of_mem hn
    have hv' : v < vertices.length := hlen ▸ hv
    have h := getElem?_vertexNormalsK M vertices triangles hvalid v hv'
    have h2 : (vertexNormalsK M vertices triangles)[v]? = some n := by
      rw [← hnv]
      exact List.getElem?_eq_getElem hv
    rw [h2] at h
    rw [Option.some.inj h]
    exact normalizeOrFallbackK_unit M _ (hsqrt _ (Vec3K.dot_self_nonneg _))
  · intro hzero v hv hun
    refine (getElem?_vertexNormalsK M vertices triangles hvalid v hv).trans ?_
    rw [referenceAccumulatedNormal_unused vertices triangles v hun]
    simp [normalizeOrFallbackK, Vec3K.norm, Vec3K.dot, hzero]
  · intro Mq mesh_obj
    exact ⟨rfl, rfl, rfl, length_vertexNormals Mq _ _, vertexNormals_toK Mq _ _⟩

/-- Witness for C7: over the reals with the real square root, the mesh with vertices
`(0,0,0)`, `(1,0,0)`, `(0,1,1)` and the triangle `(0,1,2)`, whose accumulated normals have
squared length 2. -/
theorem smooth_normals_reference_witness :
    TrianglesValid ([⟨0, 0, 0⟩, ⟨1, 0, 0⟩, ⟨0, 1, 1⟩] : List (Vec3K ℝ)) [⟨0, 1, 2⟩] ∧
    (∀ x : ℝ, 0 ≤ x → Real.sqrt x * Real.sqrt x = x) ∧
    (vertexNormalsK (⟨Real.sqrt, Real.cos, Real.sin⟩ : MathFnsK ℝ)
      [⟨0, 0, 0⟩, ⟨1, 0, 0⟩, ⟨0, 1, 1⟩] [⟨0, 1, 2⟩]).length = 3 ∧
    ∀ n ∈ vertexNormalsK (⟨Real.sqrt, Real.cos, Real.sin⟩ : MathFnsK ℝ)
        [⟨0, 0, 0⟩, ⟨1, 0, 0⟩, ⟨0, 1, 1⟩] [⟨0, 1, 2⟩],
      Vec3K.dot n n = 1 ∨ n = ⟨0, 1, 0⟩ :=
  ⟨by simp [TrianglesValid], fun _ hx => Real.mul_self_sqrt hx,
    (smooth_normals_reference (⟨Real.sqrt, Real.cos, Real.sin⟩ : MathFnsK ℝ)
      [⟨0, 0, 0⟩, ⟨1, 0, 0⟩, ⟨0, 1, 1⟩] [⟨0, 1, 2⟩] (by simp [TrianglesValid])).1,
    (smooth_normals_reference (⟨Real.sqrt, Real.cos, Real.sin⟩ : MathFnsK ℝ)
      [⟨0, 0, 0⟩, ⟨1, 0, 0⟩, ⟨0, 1, 1⟩] [⟨0, 1, 2⟩] (by simp [TrianglesValid])).2.2.1
      (fun _ hx => Real.mul_self_sqrt hx)⟩

/-! ## Merging submeshes -/

theorem foldl_mergeStep (meshes : List TriangleMesh) :
    ∀ acc : TriangleMesh,
      meshes.foldl mergeStep acc =
        { vertices := acc.vertices ++ meshes.flatMap (fun m => m.vertices),
          elements := acc.elements ++ remappedElements acc.vertices.length meshes,
          normals := acc.normals } := by
  induction meshes with
  | nil => intro acc; simp [remappedElements]
  | cons m rest ih =>
    intro acc
    rw [List.foldl_cons, ih]
    simp only [mergeStep, List.flatMap_cons, List.append_assoc, List.length_append,
      remappedElements]
    rfl

theorem vertices_mergeMeshes (meshes : List TriangleMesh) :
    (mergeMeshes meshes).vertices = meshes.flatMap (fun m => m.vertices) := by
  unfold mergeMeshes
  rw [foldl_mergeStep]
  rfl

theorem elements_mergeMeshes (meshes : List TriangleMesh) :
    (mergeMeshes meshes).elements = remappedElements 0 meshes := by
  unfold mergeMeshes
  rw [foldl_mergeStep]
  rfl

theorem length_flatMap_vertices (meshes : List TriangleMesh) :
    (meshes.flatMap (fun m => m.vertices)).length =
      (meshes.map (fun m => m.vertices.length)).sum := by
  induction meshes with
  | nil => rfl
  | cons m rest ih => simp [List.flatMap_cons, ih]

theorem length_remappedElements (meshes : List TriangleMesh) :
    ∀ offset : Nat, (remappedElements offset meshes).length =
      (meshes.map (fun m => m.elements.length)).sum := by
  induction meshes with
  | nil => intro offset; rfl
  | cons m rest ih =>
    intro offset
    simp [remappedElements, ih]

/-- C8. Merge sizes: for every sequence of submeshes, the merge loop of `Add_Obj_Mesh_Object`
yields a mesh whose vertices are the concatenation of the submesh vertex sequences in input
order, whose vertex count is the sum of the submesh vertex counts and whose triangle count is
the sum of the submesh triangle counts; the empty sequence gives no vertices and no triangles. -/
theorem merge_sizes (M : MathFns) (meshes : List TriangleMesh) :
    ((Add_Obj_Mesh_Object M meshes).mesh.vertices = (mergeMeshes meshes).vertices ∧
      (Add_Obj_Mesh_Object M meshes).mesh.elements = (mergeMeshes meshes).elements) ∧
    (mergeMeshes meshes).vertices = meshes.flatMap (fun m => m.vertices) ∧
    (mergeMeshes meshes).vertices.length = (meshes.map (fun m => m.vertices.length)).sum ∧
    (mergeMeshes meshes).elements.length = (meshes.map (fun m => m.elements.length)).sum ∧
    ((mergeMeshes []).vertices = [] ∧ (mergeMeshes []).elements = []) := by
  refine ⟨⟨rfl, rfl⟩, vertices_mergeMeshes meshes, ?_, ?_, rfl, rfl⟩
  · rw [vertices_mergeMeshes, length_flatMap_vertices]
  · rw [elements_mergeMeshes, length_remappedElements]

theorem indicesValid_mergeStep (acc m : TriangleMesh) (hacc : IndicesValid acc)
    (hm : IndicesValid m) : IndicesValid (mergeStep acc m) := by
  intro t ht
  simp only [mergeStep, List.mem_append, List.mem_map, List.length_append, Nat.cast_add] at ht ⊢
  rcases ht with h | ⟨f, hf, rfl⟩
  · obtain ⟨h0, h1, h2⟩ := hacc t h
    refine ⟨⟨h0.1, ?_⟩, ⟨h1.1, ?_⟩, ⟨h2.1, ?_⟩⟩ <;> omega
  · obtain ⟨h0, h1, h2⟩ := hm f hf
    refine ⟨⟨?_, ?_⟩, ⟨?_, ?_⟩, ⟨?_, ?_⟩⟩ <;> simp only <;> omega

theorem indicesValid_foldl_mergeStep (meshes : List TriangleMesh) :
    ∀ acc : TriangleMesh, IndicesValid acc → (∀ m ∈ meshes, IndicesValid m) →
      IndicesValid (meshes.foldl mergeStep acc) := by
  induction meshes with
  | nil => intro acc hacc _; exact hacc
  | cons m rest ih =>
    intro acc hacc hall
    rw [List.foldl_cons]
    exact ih _ (indicesValid_mergeStep acc m hacc (hall m (List.mem_cons_self _ _)))
      (fun x hx => hall x (List.mem_cons_of_mem _ hx))

theorem remappedElements_append (pre rest : List TriangleMesh) :
    ∀ offset : Nat, remappedElements offset (pre ++ rest) =
      remappedElements offset pre ++
        remappedElements (offset + (pre.map (fun m => m.vertices.length)).sum) rest := by
  induction pre with
  | nil => intro offset; simp [remappedElements]
  | cons m pre ih =>
    intro offset
    simp [remappedElements, ih, Nat.add_assoc]

theorem getElem?_merged_corner (pre post : List TriangleMesh) (m : TriangleMesh) (k : Int)
    (hk : 0 ≤ k ∧ k < (m.vertices.length : Int)) :
    (mergeMeshes (pre ++ m :: post)).vertices[
        (k + (((pre.map (fun x => x.vertices.length)).sum : Nat) : Int)).toNat]? =
      m.vertices[k.toNat]? := by
  rw [vertices_mergeMeshes, List.flatMap_append, List.flatMap_cons]
  have hidx : (k + (((pre.map (fun x => x.vertices.length)).sum : Nat) : Int)).toNat =
      (pre.flatMap (fun x => x.vertices)).length + k.toNat := by
    rw [length_flatMap_vertices]
    omega
  have hlt : k.toNat < m.vertices.length := by omega
  rw [hidx, List.getElem?_append_right (Nat.le_add_right _ _), Nat.add_sub_cancel_left,
    List.getElem?_append_left hlt]

/-- C9. Merge index remapping: if every triangle index of every submesh is non-negative and
below that submesh's vertex count, then every triangle index of the merged mesh is non-negative
and below the merged vertex count; the merged triangles are the submesh triangles in input
order, each with its three indices (in the same corner order) raised by the number of vertices
of the submeshes before its own; and each merged corner `f[c] + offset` refers to the vertex
that `f[c]` refers to in its source submesh. -/
theorem merge_index_remapping (meshes : List TriangleMesh)
    (hvalid : ∀ m ∈ meshes, IndicesValid m) :
    IndicesValid (mergeMeshes meshes) ∧
    (mergeMeshes meshes).elements = remappedElements 0 meshes ∧
    ∀ (pre post : List TriangleMesh) (m : TriangleMesh), meshes = pre ++ m :: post →
      (mergeMeshes meshes).elements =
        (mergeMeshes pre).elements ++
          m.elements.map (shiftTriangle (pre.map (fun x => x.vertices.length)).sum) ++
          remappedElements ((pre.map (fun x => x.vertices.length)).sum + m.vertices.length)
            post ∧
      ∀ f ∈ m.elements,
        (mergeMeshes meshes).vertices[
            (shiftTriangle (pre.map (fun x => x.vertices.length)).sum f).i0.toNat]? =
          m.vertices[f.i0.toNat]? ∧
        (mergeMeshes meshes).vertices[
            (shiftTriangle (pre.map (fun x => x.vertices.length)).sum f).i1.toNat]? =
          m.vertices[f.i1.toNat]? ∧
        (mergeMeshes meshes).vertices[
            (shiftTriangle (pre.map (fun x => x.vertices.length)).sum f).i2.toNat]? =
          m.vertices[f.i2.toNat]? ∧
        (∃ a b c : Vec3, m.vertices[f.i0.toNat]? = some a ∧ m.vertices[f.i1.toNat]? = some b ∧
          m.vertices[f.i2.toNat]? = some c) := by
  refine ⟨?_, elements_mergeMeshes meshes, ?_⟩
  · unfold mergeMeshes
    exact indicesValid_foldl_mergeStep meshes _ (fun t ht => by cases ht) hvalid
  · intro pre post m hsplit
    subst hsplit
    refine ⟨?_, ?_⟩
    · rw [elements_mergeMeshes, elements_mergeMeshes, remappedElements_append]
      simp [remappedElements]
    · intro f hf
      obtain ⟨h0, h1, h2⟩ := hvalid m (by simp) f hf
      refine ⟨getElem?_merged_corner pre post m f.i0 h0,
        getElem?_merged_corner pre post m f.i1 h1,
        getElem?_merged_corner pre post m f.i2 h2, ?_⟩
      have l0 : f.i0.toNat < m.vertices.length := by omega
      have l1 : f.i1.toNat < m.vertices.length := by omega
      have l2 : f.i2.toNat < m.vertices.length := by omega
      exact ⟨_, _, _, List.getElem?_eq_getElem l0, List.getElem?_eq_getElem l1,
        List.getElem?_eq_getElem l2⟩

/-- Witness for C9: merging the two example submeshes. -/
theorem merge_index_remapping_witness :
    (∀ m ∈ exampleSubmeshes, IndicesValid m) ∧ IndicesValid (mergeMeshes exampleSubmeshes) :=
  ⟨by simp [exampleSubmeshes, IndicesValid],
    (merge_index_remapping exampleSubmeshes (by simp [exampleSubmeshes, IndicesValid])).1⟩

/-! ## The trail tube -/

theorem length_flatMap_const {α β : Type} (f : α → List β) (k : Nat) (hf : ∀ a, (f a).length = k)
    (l : List α) : (l.flatMap f).length = l.length * k := by
  induction l with
  | nil => simp
  | cons a rest ih =>
    rw [List.flatMap_cons, List.length_append, ih, hf, List.length_cons]
    ring

theorem length_tubeVertices (M : MathFns) (trail_positions : List Vec3) :
    (tubeVertices M trail_positions).length = trail_positions.length * segments := by
  unfold tubeVertices
  rw [length_flatMap_const _ segments (fun i => by simp), List.length_range]

theorem length_tubeTriangles (size : Nat) :
    (tubeTriangles size).length = 2 * segments * (size - 1) := by
  unfold tubeTriangles
  rw [length_flatMap_const _ (segments * 2) (fun i => by
    rw [length_flatMap_const _ 2 (fun j => by simp [quadTriangles]), List.length_range]),
    List.length_range]
  ring

theorem rebuildTrail_sizes (M : MathFns) (trail_positions : List Vec3)
    (trail_mesh : OpenGLTriangleMesh) (h : 2 ≤ trail_positions.length) :
    (rebuildTrail M trail_positions trail_mesh).mesh.vertices.length =
        trail_positions.length * segments ∧
      (rebuildTrail M trail_positions trail_mesh).mesh.elements.length =
        2 * segments * (trail_positions.length - 1) ∧
      (rebuildTrail M trail_positions trail_mesh).visible = true := by
  have hn : ¬ trail_positions.length < 2 := by omega
  unfold rebuildTrail
  rw [if_neg hn]
  exact ⟨length_tubeVertices M trail_positions, length_tubeTriangles _, rfl⟩

theorem rebuildTrail_short (M : MathFns) (trail_positions : List Vec3)
    (trail_mesh : OpenGLTriangleMesh) (h : trail_positions.length < 2) :
    (rebuildTrail M trail_positions trail_mesh).mesh = trail_mesh.mesh ∧
      (rebuildTrail M trail_positions trail_mesh).visible = false := by
  unfold rebuildTrail
  rw [if_pos h]
  exact ⟨rfl, rfl⟩

/-- C10. Tube mesh sizes: `Update_Trail_Mesh` on a slot whose trail has `n >= 2` positions gives
the trail mesh exactly `n * segments` vertices and `2 * segments * (n - 1)` triangles
(`segments = 6`; so `2 * segments` of each for a 2-point trail) and makes it visible; on a slot
whose trail has 0 or 1 positions it builds nothing, leaves the geometry of the trail mesh
unchanged and makes the trail mesh invisible. -/
theorem tube_mesh_sizes (M : MathFns) (d : MyDriver) (particle_idx : Nat) (p : Particle)
    (trail_mesh : OpenGLTriangleMesh) (hp : d.particles[particle_idx]? = some p)
    (htm : d.trail_meshes[particle_idx]? = some trail_mesh) :
    segments = 6 ∧
    ∃ out : OpenGLTriangleMesh,
      (Update_Trail_Mesh M d particle_idx).trail_meshes[particle_idx]? = some out ∧
      (2 ≤ p.trail_positions.length →
        out.mesh.vertices.length = p.trail_positions.length * segments ∧
        out.mesh.elements.length = 2 * segments * (p.trail_positions.length - 1) ∧
        out.visible = true) ∧
      (p.trail_positions.length = 2 →
        out.mesh.vertices.length = 2 * segments ∧ out.mesh.elements.length = 2 * segments) ∧
      (p.trail_positions.length < 2 →
        out.mesh.vertices = trail_mesh.mesh.vertices ∧
        out.mesh.elements = trail_mesh.mesh.elements ∧
        out.mesh.normals = trail_mesh.mesh.normals ∧
        out.visible = false) := by
  refine ⟨rfl, rebuildTrail M p.trail_positions trail_mesh, ?_, ?_, ?_, ?_⟩
  · unfold Update_Trail_Mesh
    rw [hp]
    simp only
    rw [getElem?_modifyAt_self, htm]
    rfl
  · exact rebuildTrail_sizes M _ _
  · intro h2
    obtain ⟨h1, h3, -⟩ := rebuildTrail_sizes M p.trail_positions trail_mesh (by omega)
    rw [h1, h3, h2]
    exact ⟨by ring, by ring⟩
  · intro hlt
    obtain ⟨h1, h3⟩ := rebuildTrail_short M p.trail_positions trail_mesh hlt
    rw [h1]
    exact ⟨rfl, rfl, rfl, h3⟩

/-- Witness for C10: slot 0 of the tube pool (a 2-point trail) and slot 1 (a 1-point trail and
a trail mesh holding the example geometry). -/
theorem tube_mesh_sizes_witness :
    (tubePool.particles[0]? = some longTrailParticle ∧
      tubePool.trail_meshes[0]? = some ({} : OpenGLTriangleMesh) ∧
      tubePool.particles[1]? = some shortTrailParticle ∧
      tubePool.trail_meshes[1]? = some exampleMeshObject) ∧
    (∃ out : OpenGLTriangleMesh,
      (Update_Trail_Mesh exampleMath tubePool 0).trail_meshes[0]? = some out ∧
      out.mesh.vertices.length = 12 ∧ out.mesh.elements.length = 12 ∧ out.visible = true) ∧
    (∃ out : OpenGLTriangleMesh,
      (Update_Trail_Mesh exampleMath tubePool 1).trail_meshes[1]? = some out ∧
      out.mesh.vertices = exampleMeshObject.mesh.vertices ∧
      out.mesh.elements = exampleMeshObject.mesh.elements ∧ out.visible = false) := by
  refine ⟨⟨rfl, rfl, rfl, rfl⟩, ?_, ?_⟩
  · obtain ⟨-, out, h1, h2, -, -⟩ :=
      tube_mesh_sizes exampleMath tubePool 0 longTrailParticle {} rfl rfl
    obtain ⟨a, b, c⟩ := h2 (le_refl 2)
    exact ⟨out, h1, a, b, c⟩
  · obtain ⟨-, out, h1, -, -, h4⟩ :=
      tube_mesh_sizes exampleMath tubePool 1 shortTrailParticle exampleMeshObject rfl rfl
    obtain ⟨a, b, -, c⟩ := h4 (by decide)
    exact ⟨out, h1, a, b, c⟩

/-! ## Index validity of the trail tube -/

theorem mem_quadTriangles_valid (size i j : Nat) (hi : i < size - 1) (hj : j < segments)
    (t : Vec3i) (ht : t ∈ quadTriangles i j) :
    (0 ≤ t.i0 ∧ t.i0 < ((size * segments : Nat) : Int)) ∧
    (0 ≤ t.i1 ∧ t.i1 < ((size * segments : Nat) : Int)) ∧
    (0 ≤ t.i2 ∧ t.i2 < ((size * segments : Nat) : Int)) := by
  have hm : (j + 1) % segments < segments := Nat.mod_lt _ (by decide)
  unfold segments at hj hm ⊢
  simp only [quadTriangles, List.mem_cons, List.mem_singleton, List.not_mem_nil, or_false] at ht
  unfold segments at ht
  rcases ht with rfl | rfl <;>
    refine ⟨⟨?_, ?_⟩, ⟨?_, ?_⟩, ⟨?_, ?_⟩⟩ <;> simp only <;> omega

theorem mem_tubeTriangles_valid (size : Nat) (t : Vec3i) (ht : t ∈ tubeTriangles size) :
    (0 ≤ t.i0 ∧ t.i0 < ((size * segments : Nat) : Int)) ∧
    (0 ≤ t.i1 ∧ t.i1 < ((size * segments : Nat) : Int)) ∧
    (0 ≤ t.i2 ∧ t.i2 < ((size * segments : Nat) : Int)) := by
  unfold tubeTriangles at ht
  rw [List.mem_flatMap] at ht
  obtain ⟨i, hi, ht⟩ := ht
  rw [List.mem_flatMap] at ht
  obtain ⟨j, hj, ht⟩ := ht
  exact mem_quadTriangles_valid size i j (List.mem_range.mp hi) (List.mem_range.mp hj) t ht

theorem rebuildTrail_valid (M : MathFns) (trail_positions : List Vec3)
    (trail_mesh : OpenGLTriangleMesh) (h : 2 ≤ trail_positions.length) :
    IndicesValid (rebuildTrail M trail_positions trail_mesh).mesh ∧
      (rebuildTrail M trail_positions trail_mesh).mesh.normals.length =
        (rebuildTrail M trail_positions trail_mesh).mesh.vertices.length := by
  have hn : ¬ trail_positions.length < 2 := by omega
  unfold rebuildTrail
  rw [if_neg hn]
  refine ⟨?_, ?_⟩
  · intro t ht
    have hlen : (tubeVertices M trail_positions).length = trail_positions.length * segments :=
      length_tubeVertices M trail_positions
    simp only [Compute_Vertex_Normals] at ht ⊢
    rw [hlen]
    exact mem_tubeTriangles_valid _ t ht
  · exact length_vertexNormals M _ _

/-- C11. Tube mesh index validity: when `Update_Trail_Mesh` runs on a slot whose trail has
`n >= 2` positions, every index of every emitted triangle is `>= 0` and `< n * segments`, the
number of emitted vertices; so every read `vertices[tri[c]]` of `Compute_Vertex_Normals` hits a
vertex, the accumulator array it indexes has the length of the vertex array, and the stored
normals have the same length as the vertices.  Every access `trail_positions[i + 1]` (taken
when `i < n - 1`) and `trail_positions[i - 1]` (taken otherwise, where `i >= 1`) of the builder
is in bounds. -/
theorem tube_mesh_indices_valid (M : MathFns) (d : MyDriver) (particle_idx : Nat) (p : Particle)
    (trail_mesh : OpenGLTriangleMesh) (hp : d.particles[particle_idx]? = some p)
    (htm : d.trail_meshes[particle_idx]? = some trail_mesh)
    (hn : 2 ≤ p.trail_positions.length) :
    (∃ out : OpenGLTriangleMesh,
      (Update_Trail_Mesh M d particle_idx).trail_meshes[particle_idx]? = some out ∧
      out.mesh.vertices.length = p.trail_positions.length * segments ∧
      (∀ t ∈ out.mesh.elements,
        (0 ≤ t.i0 ∧ t.i0 < ((p.trail_positions.length * segments : Nat) : Int)) ∧
        (0 ≤ t.i1 ∧ t.i1 < ((p.trail_positions.length * segments : Nat) : Int)) ∧
        (0 ≤ t.i2 ∧ t.i2 < ((p.trail_positions.length * segments : Nat) : Int))) ∧
      IndicesValid out.mesh ∧
      (∀ t ∈ out.mesh.elements, ∃ a b c : Vec3,
        out.mesh.vertices[t.i0.toNat]? = some a ∧ out.mesh.vertices[t.i1.toNat]? = some b ∧
        out.mesh.vertices[t.i2.toNat]? = some c) ∧
      (accumulateNormals out.mesh.vertices out.mesh.elements).length =
        out.mesh.vertices.length ∧
      out.mesh.normals.length = out.mesh.vertices.length) ∧
    (∀ i : Nat, i < p.trail_positions.length →
      (i < p.trail_positions.length - 1 → ∃ q : Vec3, p.trail_positions[i + 1]? = some q) ∧
      (¬ i < p.trail_positions.length - 1 →
        1 ≤ i ∧ ∃ q : Vec3, p.trail_positions[i - 1]? = some q)) := by
  obtain ⟨hvalid, hnormals⟩ := rebuildTrail_valid M p.trail_positions trail_mesh hn
  obtain ⟨hverts, -, -⟩ := rebuildTrail_sizes M p.trail_positions trail_mesh hn
  refine ⟨⟨rebuildTrail M p.trail_positions trail_mesh, ?_, hverts, ?_, hvalid, ?_, ?_,
    hnormals⟩, ?_⟩
  · unfold Update_Trail_Mesh
    rw [hp]
    simp only
    rw [getElem?_modifyAt_self, htm]
    rfl
  · intro t ht
    have h := hvalid t ht
    rw [hverts] at h
    exact h
  · intro t ht
    obtain ⟨h0, h1, h2⟩ := hvalid t ht
    have l0 : t.i0.toNat < (rebuildTrail M p.trail_positions trail_mesh).mesh.vertices.length := by
      omega
    have l1 : t.i1.toNat < (rebuildTrail M p.trail_positions trail_mesh).mesh.vertices.length := by
      omega
    have l2 : t.i2.toNat < (rebuildTrail M p.trail_positions trail_mesh).mesh.vertices.length := by
      omega
    exact ⟨_, _, _, List.getElem?_eq_getElem l0, List.getElem?_eq_getElem l1,
      List.getElem?_eq_getElem l2⟩
  · unfold accumulateNormals
    rw [length_foldl_accumulateTri, List.length_replicate]
  · intro i hi
    refine ⟨fun h => ⟨_, List.getElem?_eq_getElem (by omega : i + 1 < p.trail_positions.length)⟩,
      fun h => ⟨by omega, _,
        List.getElem?_eq_getElem (by omega : i - 1 < p.trail_positions.length)⟩⟩

/-- Witness for C11: slot 0 of the tube pool, whose trail has two positions. -/
theorem tube_mesh_indices_valid_witness :
    (tubePool.particles[0]? = some longTrailParticle ∧
      tubePool.trail_meshes[0]? = some ({} : OpenGLTriangleMesh) ∧
      2 ≤ longTrailParticle.trail_positions.length) ∧
    ∃ out : OpenGLTriangleMesh,
      (Update_Trail_Mesh exampleMath tubePool 0).trail_meshes[0]? = some out ∧
      IndicesValid out.mesh ∧ out.mesh.normals.length = out.mesh.vertices.length := by
  refine ⟨⟨rfl, rfl, by decide⟩, ?_⟩
  obtain ⟨⟨out, h1, -, -, h2, -, -, h3⟩, -⟩ :=
    tube_mesh_indices_valid exampleMath tubePool 0 longTrailParticle {} rfl rfl (by decide)
  exact ⟨out, h1, h2, h3⟩

/-! ## The local frame -/

theorem ringVertex_eq (M : MathFns) (trail_positions : List Vec3) (i j : Nat) :
    ringVertex M trail_positions i j =
      Vec3.add (trail_positions.getD i Vec3.zero)
        (Vec3.smul
          (Vec3.add
            (Vec3.smul (frameRight M (trailForward M trail_positions i)) (M.cos (ringAngle j)))
            (Vec3.smul (frameUp M (trailForward M trail_positions i)) (M.sin (ringAngle j))))
          (trailRadius trail_positions.length i)) := by
  rfl

/-! ## Orthonormality of the local frame -/

theorem Vec3K.dot_cross_left {K : Type} [LinearOrderedField K] (a b : Vec3K K) :
    Vec3K.dot a (Vec3K.cross a b) = 0 := by
  unfold Vec3K.dot Vec3K.cross
  ring

theorem Vec3K.dot_cross_right {K : Type} [LinearOrderedField K] (a b : Vec3K K) :
    Vec3K.dot b (Vec3K.cross a b) = 0 := by
  unfold Vec3K.dot Vec3K.cross
  ring

theorem Vec3K.dot_cross_self {K : Type} [LinearOrderedField K] (a b : Vec3K K) :
    Vec3K.dot (Vec3K.cross a b) (Vec3K.cross a b) =
      Vec3K.dot a a * Vec3K.dot b b - Vec3K.dot a b ^ 2 := by
  unfold Vec3K.dot Vec3K.cross
  ring

theorem Vec3K.dot_sdiv_right {K : Type} [LinearOrderedField K] (a c : Vec3K K) (s : K) :
    Vec3K.dot a (Vec3K.sdiv c s) = Vec3K.dot a c / s := by
  unfold Vec3K.dot Vec3K.sdiv
  ring

/-- Normalizing keeps a vector perpendicular to whatever it was perpendicular to, whatever the
square root returns. -/
theorem dot_normalized_eq_zero {K : Type} [LinearOrderedField K] (M : MathFnsK K)
    (a c : Vec3K K) (h : Vec3K.dot a c = 0) : Vec3K.dot a (Vec3K.normalized M c) = 0 := by
  unfold Vec3K.normalized
  split
  · rw [Vec3K.dot_sdiv_right, h, zero_div]
  · exact h

/-- Where the square root is exact on its squared length, a non-zero vector is normalized to
unit length. -/
theorem normalizedK_unit {K : Type} [LinearOrderedField K] (M : MathFnsK K) (c : Vec3K K)
    (hpos : 0 < Vec3K.dot c c)
    (hsqrt : M.sqrt (Vec3K.dot c c) * M.sqrt (Vec3K.dot c c) = Vec3K.dot c c) :
    Vec3K.dot (Vec3K.normalized M c) (Vec3K.normalized M c) = 1 := by
  have hne : M.sqrt (Vec3K.dot c c) ≠ 0 := by
    intro h0
    rw [h0] at hsqrt
    simp only [mul_zero] at hsqrt
    rw [← hsqrt] at hpos
    exact lt_irrefl _ hpos
  unfold Vec3K.normalized
  rw [if_pos hpos, Vec3K.dot_sdiv, div_eq_one_iff_eq (mul_ne_zero hne hne)]
  exact hsqrt.symm

theorem frameRightK_eq {K : Type} [LinearOrderedField K] (M : MathFnsK K) (forward : Vec3K K) :
    frameRightK M forward =
      Vec3K.normalized M (Vec3K.cross forward (frameRefK forward)) := by
  unfold frameRightK frameRefK
  split <;> rfl

/-- For a unit `forward` the squared length of `forward x ref` is `1 - y^2 > 19/100` when the
reference axis is world up, and at least `y^2 >= 81/100` when it is the x axis. -/
theorem frameRefK_cross_pos {K : Type} [LinearOrderedField K] (forward : Vec3K K)
    (hunit : Vec3K.dot forward forward = 1) :
    0 < Vec3K.dot (Vec3K.cross forward (frameRefK forward))
      (Vec3K.cross forward (frameRefK forward)) := by
  unfold Vec3K.dot at hunit
  unfold frameRefK
  split
  · rename_i h
    have h1 := (abs_lt.mp h).1
    have h2 := (abs_lt.mp h).2
    simp only [Vec3K.dot, Vec3K.cross]
    nlinarith
  · rename_i h
    have h1 : 9 / 10 ≤ |forward.y| := not_lt.mp h
    have h2 : forward.y * forward.y = |forward.y| * |forward.y| := (abs_mul_abs_self _).symm
    simp only [Vec3K.dot, Vec3K.cross]
    nlinarith [mul_self_nonneg forward.z]

theorem normalized_toK (M : MathFns) (a : Vec3) :
    Vec3.toK (Vec3.normalized M a) = Vec3K.normalized M.toK (Vec3.toK a) := by
  unfold Vec3.normalized Vec3K.normalized
  simp only [apply_ite Vec3.toK]
  rfl

/-- The rational `right` is the instance at `K = ℚ` of `right` over an ordered field. -/
theorem frameRight_toK (M : MathFns) (forward : Vec3) :
    Vec3.toK (frameRight M forward) = frameRightK M.toK (Vec3.toK forward) := by
  unfold frameRight frameRightK
  simp only [apply_ite Vec3.toK, normalized_toK]
  rfl

/-- The rational `up` is the instance at `K = ℚ` of `up` over an ordered field. -/
theorem frameUp_toK (M : MathFns) (forward : Vec3) :
    Vec3.toK (frameUp M forward) = frameUpK M.toK (Vec3.toK forward) := by
  unfold frameUp frameUpK
  rw [normalized_toK, ← frameRight_toK]
  rfl

/-- C12. Local frame orthonormality: over any ordered field of scalars and for every
unit-length `forward` (also when it is exactly or nearly parallel to world up), the cross
product of `forward` with the reference axis (`(0, 1, 0)` if `|forward.y| < 0.9`, else
`(1, 0, 0)`) is not the zero vector; the vectors `right = normalize(forward x ref)` and
`up = normalize(forward x right)` computed by `Update_Trail_Mesh` are perpendicular to each
other and both perpendicular to `forward`; and where the square root is exact, as it is over
the reals, both have unit length.  The rational `right` and `up` used by the trail builder are
the instances of these at `K = ℚ`. -/
theorem local_frame_orthonormal {K : Type} [LinearOrderedField K] (M : MathFnsK K)
    (forward : Vec3K K) (hunit : Vec3K.dot forward forward = 1) :
    Vec3K.cross forward (frameRefK forward) ≠ ⟨0, 0, 0⟩ ∧
    frameRightK M forward = Vec3K.normalized M (Vec3K.cross forward (frameRefK forward)) ∧
    frameUpK M forward = Vec3K.normalized M (Vec3K.cross forward (frameRightK M forward)) ∧
    Vec3K.dot (frameRightK M forward) (frameUpK M forward) = 0 ∧
    Vec3K.dot forward (frameRightK M forward) = 0 ∧
    Vec3K.dot forward (frameUpK M forward) = 0 ∧
    ((∀ x : K, 0 ≤ x → M.sqrt x * M.sqrt x = x) →
      Vec3K.dot (frameRightK M forward) (frameRightK M forward) = 1 ∧
      Vec3K.dot (frameUpK M forward) (frameUpK M forward) = 1) ∧
    (∀ (Mq : MathFns) (f : Vec3),
      Vec3.toK (frameRight Mq f) = frameRightK Mq.toK (Vec3.toK f) ∧
      Vec3.toK (frameUp Mq f) = frameUpK Mq.toK (Vec3.toK f)) := by
  have hpos := frameRefK_cross_pos forward hunit
  have hfr : Vec3K.dot forward (frameRightK M forward) = 0 := by
    rw [frameRightK_eq]
    exact dot_normalized_eq_zero M _ _ (Vec3K.dot_cross_left _ _)
  refine ⟨?_, frameRightK_eq M forward, rfl, ?_, hfr, ?_, ?_,
    fun Mq f => ⟨frameRight_toK Mq f, frameUp_toK Mq f⟩⟩
  · intro hz
    rw [hz] at hpos
    simp [Vec3K.dot] at hpos
  · unfold frameUpK
    exact dot_normalized_eq_zero M _ _ (Vec3K.dot_cross_right _ _)
  · unfold frameUpK
    exact dot_normalized_eq_zero M _ _ (Vec3K.dot_cross_left _ _)
  · intro hsqrt
    have hr : Vec3K.dot (frameRightK M forward) (frameRightK M forward) = 1 := by
      rw [frameRightK_eq]
      exact normalizedK_unit M _ hpos (hsqrt _ (Vec3K.dot_self_nonneg _))
    have hcc : Vec3K.dot (Vec3K.cross forward (frameRightK M forward))
        (Vec3K.cross forward (frameRightK M forward)) = 1 := by
      rw [Vec3K.dot_cross_self, hunit, hr, hfr]
      norm_num
    refine ⟨hr, ?_⟩
    unfold frameUpK
    exact normalizedK_unit M _ (by rw [hcc]; exact one_pos)
      (hsqrt _ (Vec3K.dot_self_nonneg _))

/-- Witness for C12: over the reals with the real square root, the unit vector
`(2/3, 2/3, 1/3)`, for which the squared length of `forward x ref` is `5/9`. -/
theorem local_frame_orthonormal_witness :
    (Vec3K.dot (⟨2 / 3, 2 / 3, 1 / 3⟩ : Vec3K ℝ) ⟨2 / 3, 2 / 3, 1 / 3⟩ = 1 ∧
      ∀ x : ℝ, 0 ≤ x → Real.sqrt x * Real.sqrt x = x) ∧
    Vec3K.dot (frameRightK (⟨Real.sqrt, Real.cos, Real.sin⟩ : MathFnsK ℝ) ⟨2 / 3, 2 / 3, 1 / 3⟩)
      (frameRightK (⟨Real.sqrt, Real.cos, Real.sin⟩ : MathFnsK ℝ) ⟨2 / 3, 2 / 3, 1 / 3⟩) = 1 ∧
    Vec3K.dot (frameUpK (⟨Real.sqrt, Real.cos, Real.sin⟩ : MathFnsK ℝ) ⟨2 / 3, 2 / 3, 1 / 3⟩)
      (frameUpK (⟨Real.sqrt, Real.cos, Real.sin⟩ : MathFnsK ℝ) ⟨2 / 3, 2 / 3, 1 / 3⟩) = 1 :=
  ⟨⟨by norm_num [Vec3K.dot], fun _ hx => Real.mul_self_sqrt hx⟩,
    (local_frame_orthonormal (⟨Real.sqrt, Real.cos, Real.sin⟩ : MathFnsK ℝ)
      ⟨2 / 3, 2 / 3, 1 / 3⟩ (by norm_num [Vec3K.dot])).2.2.2.2.2.2.1
      (fun _ hx => Real.mul_self_sqrt hx)⟩

/-! ## The integration step -/

/-- C13. Integration step: for an active particle in a slot below `num_particles` and a `dt`
with `lifetime + dt < max_lifetime`, `Update_Particles(dt)` leaves it active with
`lifetime' = lifetime + dt`, `velocity' = velocity + gravity * dt` where
`gravity = (0, -9.8, 0)`, `position' = position + velocity' * dt` (the updated velocity), and
the trail equal to the old trail with `position'` appended at the back and, only if that makes
its length exceed the capacity (15), its front element removed; the slot of an inactive
particle (record and both meshes) is not modified at all. -/
theorem integration_step (M : MathFns) (d : MyDriver) (dt : ℚ) (i : Nat) (p : Particle)
    (hp : d.particles[i]? = some p) (hi : i < d.num_particles.toNat) :
    (p.active = true → p.lifetime + dt < p.max_lifetime →
      ∃ q : Particle, (Update_Particles M d dt).particles[i]? = some q ∧
        q.active = true ∧ q.lifetime = p.lifetime + dt ∧
        q.velocity = Vec3.add p.velocity (Vec3.smul gravity dt) ∧
        q.velocity = ⟨p.velocity.x, p.velocity.y + (-49 / 5) * dt, p.velocity.z⟩ ∧
        q.position = Vec3.add p.position (Vec3.smul q.velocity dt) ∧
        q.trail_positions =
          (if (p.trail_positions ++ [q.position]).length > sizeT p.max_trail_length then
            (p.trail_positions ++ [q.position]).tail
          else p.trail_positions ++ [q.position]) ∧
        (p.max_trail_length = 15 →
          q.trail_positions =
            (if 15 < (p.trail_positions ++ [q.position]).length then
              (p.trail_positions ++ [q.position]).tail
            else p.trail_positions ++ [q.position])) ∧
        q.max_lifetime = p.max_lifetime ∧ q.max_trail_length = p.max_trail_length) ∧
    (p.active = false → slotAt (Update_Particles M d dt) i = slotAt d i) := by
  refine ⟨?_, ?_⟩
  · intro hact hlt
    have hnot : ¬ p.lifetime + dt ≥ p.max_lifetime := not_le.mpr hlt
    have hq : (Update_Particles M d dt).particles[i]? = some (stepParticle dt p) := by
      rw [particles_Update_Particles_getElem?, if_pos hi, hp]
      rfl
    have hs : stepParticle dt p = integrate dt { p with lifetime := p.lifetime + dt } := by
      simp [stepParticle, hact, hnot]
    refine ⟨stepParticle dt p, hq, ?_⟩
    rw [hs]
    refine ⟨hact, rfl, rfl, ?_, rfl, rfl, ?_, rfl, rfl⟩
    · simp [integrate, Vec3.add, Vec3.smul, gravity]
    · intro hmax
      simp only [integrate, hmax, sizeT_fifteen]
  · intro hact
    rw [slotAt_Update_Particles, if_pos hi]
    simp only [slotAt, hp, stepSlot]
    have h1 : stepParticle dt p = p := by simp [stepParticle, hact]
    rw [h1]
    generalize d.particle_meshes[i]? = a
    generalize d.trail_meshes[i]? = b
    cases a <;> cases b <;> simp [stepParticleMesh, stepTrailMesh, hact]

/-- Witness for C13: the active particle in slot 0 of the tube pool is integrated by an update
with `dt = 1/10`, and the inactive slot 1 of the example pool is left alone. -/
theorem integration_step_witness :
    (tubePool.particles[0]? = some longTrailParticle ∧ 0 < tubePool.num_particles.toNat ∧
      longTrailParticle.active = true ∧
      longTrailParticle.lifetime + 1 / 10 < longTrailParticle.max_lifetime ∧
      examplePool.particles[1]? = some ({} : Particle) ∧
      1 < examplePool.num_particles.toNat) ∧
    (∃ q : Particle, (Update_Particles exampleMath tubePool (1 / 10)).particles[0]? = some q ∧
      q.active = true ∧ q.lifetime = longTrailParticle.lifetime + 1 / 10) ∧
    slotAt (Update_Particles exampleMath examplePool (1 / 10)) 1 = slotAt examplePool 1 := by
  have hlt : longTrailParticle.lifetime + 1 / 10 < longTrailParticle.max_lifetime := by
    norm_num [longTrailParticle]
  refine ⟨⟨rfl, by decide, rfl, hlt, rfl, by decide⟩, ?_, ?_⟩
  · obtain ⟨q, h1, h2, h3, -⟩ :=
      (integration_step exampleMath tubePool (1 / 10) 0 longTrailParticle rfl (by decide)).1
        rfl hlt
    exact ⟨q, h1, h2, h3⟩
  · exact (integration_step exampleMath examplePool (1 / 10) 1 {} rfl (by decide)).2 rfl

/-! ## The radius taper -/

theorem getElem?_flatMap_range {β : Type} (f : Nat → List β) (k : Nat)
    (hf : ∀ a, (f a).length = k) :
    ∀ n i j : Nat, i < n → j < k → ((List.range n).flatMap f)[i * k + j]? = (f i)[j]? := by
  intro n
  induction n with
  | zero => intro i j hi; omega
  | succ n ih =>
    intro i j hi hj
    have hlen : ((List.range n).flatMap f).length = n * k := by
      rw [length_flatMap_const f k hf, List.length_range]
    rw [List.range_succ, List.flatMap_append, List.getElem?_append, hlen]
    by_cases hin : i < n
    · have hlt : i * k + j < n * k := by
        calc i * k + j < i * k + k := by omega
          _ = (i + 1) * k := by ring
          _ ≤ n * k := Nat.mul_le_mul_right k hin
      rw [if_pos hlt]
      exact ih i j hin hj
    · have hin' : i = n := by omega
      subst hin'
      rw [if_neg (by omega), Nat.add_sub_cancel_left]
      simp

theorem getElem?_tubeVertices (M : MathFns) (trail_positions : List Vec3) (i j : Nat)
    (hi : i < trail_positions.length) (hj : j < segments) :
    (tubeVertices M trail_positions)[i * segments + j]? =
      some (ringVertex M trail_positions i j) := by
  unfold tubeVertices
  rw [getElem?_flatMap_range _ segments (fun a => by simp) _ i j hi hj, List.getElem?_map,
    List.getElem?_range hj]
  rfl

theorem trailRadius_mono (size i k : Nat) (hik : i ≤ k) :
    trailRadius size i ≤ trailRadius size k := by
  unfold trailRadius
  have hb : (0 : ℚ) ≤ base_radius := by norm_num [base_radius]
  have hik' : (i : ℚ) ≤ (k : ℚ) := by exact_mod_cast hik
  exact mul_le_mul_of_nonneg_left
    (div_le_div_of_nonneg_right hik' (Nat.cast_nonneg _)) hb

theorem trailRadius_newest (size : Nat) (h : 2 ≤ size) :
    trailRadius size (size - 1) = base_radius := by
  unfold trailRadius
  have hne : ((size - 1 : Nat) : ℚ) ≠ 0 := by
    have : size - 1 ≠ 0 := by omega
    exact_mod_cast this
  rw [div_self hne, mul_one]

theorem trailRadius_oldest (size : Nat) : trailRadius size 0 = 0 := by
  simp [trailRadius]

theorem ringVertex_oldest (M : MathFns) (trail_positions : List Vec3) (j : Nat) :
    ringVertex M trail_positions 0 j = trail_positions.getD 0 Vec3.zero := by
  rw [ringVertex_eq, trailRadius_oldest]
  simp [Vec3.add, Vec3.smul]

theorem vertices_rebuildTrail (M : MathFns) (trail_positions : List Vec3)
    (trail_mesh : OpenGLTriangleMesh) (h : 2 ≤ trail_positions.length) :
    (rebuildTrail M trail_positions trail_mesh).mesh.vertices =
      tubeVertices M trail_positions := by
  have hn : ¬ trail_positions.length < 2 := by omega
  unfold rebuildTrail
  rw [if_neg hn]
  rfl

/-- C14. Radius taper: when `Update_Trail_Mesh` runs on a slot whose trail has `n >= 2`
positions, emitted vertex `i * segments + j` (ring vertex `j` of trail point `i`) is
`pos_i + r_i * (right_i * cos(theta_j) + up_i * sin(theta_j))` with
`r_i = base_radius * i / (n - 1)` and `theta_j = 2 * M_PI * j / segments`; `r_i` is
non-decreasing in `i`, equals `base_radius = 0.008` at the newest point and 0 at the oldest
point, where every ring vertex is trail position 0. -/
theorem radius_taper (M : MathFns) (d : MyDriver) (particle_idx : Nat) (p : Particle)
    (trail_mesh : OpenGLTriangleMesh) (hp : d.particles[particle_idx]? = some p)
    (htm : d.trail_meshes[particle_idx]? = some trail_mesh)
    (hn : 2 ≤ p.trail_positions.length) :
    (∃ out : OpenGLTriangleMesh,
      (Update_Trail_Mesh M d particle_idx).trail_meshes[particle_idx]? = some out ∧
      (∀ i j : Nat, i < p.trail_positions.length → j < segments →
        ∃ pos : Vec3, p.trail_positions[i]? = some pos ∧
          out.mesh.vertices[i * segments + j]? =
            some (Vec3.add pos
              (Vec3.smul
                (Vec3.add
                  (Vec3.smul (frameRight M (trailForward M p.trail_positions i))
                    (M.cos (ringAngle j)))
                  (Vec3.smul (frameUp M (trailForward M p.trail_positions i))
                    (M.sin (ringAngle j))))
                (trailRadius p.trail_positions.length i)))) ∧
      (∀ j : Nat, j < segments →
        ∃ pos : Vec3, p.trail_positions[0]? = some pos ∧ out.mesh.vertices[j]? = some pos)) ∧
    (∀ i : Nat, trailRadius p.trail_positions.length i =
      base_radius * ((i : ℚ) / ((p.trail_positions.length - 1 : Nat) : ℚ))) ∧
    (∀ j : Nat, ringAngle j = 2 * M_PI * (j : ℚ) / (segments : ℚ)) ∧
    (∀ i k : Nat, i ≤ k →
      trailRadius p.trail_positions.length i ≤ trailRadius p.trail_positions.length k) ∧
    trailRadius p.trail_positions.length (p.trail_positions.length - 1) = base_radius ∧
    base_radius = 8 / 1000 ∧
    trailRadius p.trail_positions.length 0 = 0 := by
  refine ⟨⟨rebuildTrail M p.trail_positions trail_mesh, ?_, ?_, ?_⟩, fun _ => rfl, fun _ => rfl,
    fun i k hik => trailRadius_mono _ i k hik, trailRadius_newest _ hn, rfl,
    trailRadius_oldest _⟩
  · unfold Update_Trail_Mesh
    rw [hp]
    simp only
    rw [getElem?_modifyAt_self, htm]
    rfl
  · intro i j hi hj
    refine ⟨p.trail_positions.get ⟨i, hi⟩, List.getElem?_eq_getElem hi, ?_⟩
    rw [vertices_rebuildTrail M _ _ hn, getElem?_tubeVertices M _ i j hi hj, ringVertex_eq,
      List.getD_eq_getElem _ _ hi]
    rfl
  · intro j hj
    have h0 : 0 < p.trail_positions.length := by omega
    refine ⟨p.trail_positions.get ⟨0, h0⟩, List.getElem?_eq_getElem h0, ?_⟩
    have h := getElem?_tubeVertices M p.trail_positions 0 j h0 hj
    rw [Nat.zero_mul, Nat.zero_add] at h
    rw [vertices_rebuildTrail M _ _ hn, h, ringVertex_oldest, List.getD_eq_getElem _ _ h0]
    rfl

/-- Witness for C14: slot 0 of the tube pool, whose trail has two positions. -/
theorem radius_taper_witness :
    (tubePool.particles[0]? = some longTrailParticle ∧
      tubePool.trail_meshes[0]? = some ({} : OpenGLTriangleMesh) ∧
      2 ≤ longTrailParticle.trail_positions.length) ∧
    trailRadius longTrailParticle.trail_positions.length
      (longTrailParticle.trail_positions.length - 1) = base_radius ∧
    ∃ out : OpenGLTriangleMesh,
      (Update_Trail_Mesh exampleMath tubePool 0).trail_meshes[0]? = some out ∧
      ∀ j : Nat, j < segments →
        ∃ pos : Vec3, longTrailParticle.trail_positions[0]? = some pos ∧
          out.mesh.vertices[j]? = some pos := by
  refine ⟨⟨rfl, rfl, by decide⟩, ?_⟩
  obtain ⟨⟨out, h1, -, h2⟩, -, -, -, h3, -, -⟩ :=
    radius_taper exampleMath tubePool 0 longTrailParticle {} rfl rfl (by decide)
  exact ⟨h3, out, h1, h2⟩

/-! ## Active particles and their trail -/

theorem trailTracks_spawnParticle (M : MathFns) (e : Vec3) (r : Draw) (p : Particle)
    (h : TrailTracks p) : TrailTracks (spawnParticle M e r p) := by
  refine ⟨⟨?_, h.1.2⟩, fun _ => rfl⟩
  simp [spawnParticle, h.1.2]

theorem getLast?_integrate (dt : ℚ) (p : Particle) (h : TrailBounded p) :
    (integrate dt p).trail_positions.getLast? = some (integrate dt p).position := by
  obtain ⟨-, hmax⟩ := h
  simp only [integrate, hmax, sizeT_fifteen]
  split
  · rename_i hlen
    cases htr : p.trail_positions with
    | nil =>
      rw [htr] at hlen
      simp at hlen
    | cons a rest => simp
  · simp

theorem length_integrate_ge (dt : ℚ) (p : Particle) (h : TrailBounded p)
    (hne : p.trail_positions ≠ []) : 2 ≤ (integrate dt p).trail_positions.length := by
  obtain ⟨-, hmax⟩ := h
  have hpos : 0 < p.trail_positions.length := List.length_pos_of_ne_nil hne
  simp only [integrate, hmax, sizeT_fifteen]
  split
  · rename_i hlen
    simp only [List.length_tail, List.length_append, List.length_singleton] at hlen ⊢
    omega
  · simp only [List.length_append, List.length_singleton]
    omega

theorem trailTracks_stepParticle (dt : ℚ) (p : Particle) (h : TrailTracks p) :
    TrailTracks (stepParticle dt p) := by
  unfold stepParticle
  split
  · exact h
  · dsimp only
    split
    · exact ⟨h.1, fun hc => by cases hc⟩
    · have hb : TrailBounded { p with lifetime := p.lifetime + dt } := h.1
      exact ⟨trailBounded_integrate dt _ hb, fun _ => getLast?_integrate dt _ hb⟩

theorem forall_particles_updateStep (M : MathFns) (dt : ℚ) (P : Particle → Prop)
    (hP : ∀ p, P p → P (stepParticle dt p)) (d : MyDriver) (i : Nat)
    (h : ∀ p ∈ d.particles, P p) : ∀ p ∈ (updateStep M dt d i).particles, P p := by
  unfold updateStep
  cases hp : d.particles[i]? with
  | none => simpa using h
  | some p =>
    have hpp : P (stepParticle dt p) := hP p (h p (List.getElem?_mem hp))
    cases hact : p.active with
    | false => simpa [hact] using h
    | true =>
      by_cases hlife : p.lifetime + dt ≥ p.max_lifetime
      · have hs : stepParticle dt p = { p with lifetime := p.lifetime + dt, active := false } := by
          simp [stepParticle, hact, hlife]
        rw [hs] at hpp
        simp only [hact, hlife, Bool.not_true, if_true, if_false, Bool.false_eq_true]
        exact forall_mem_set _ _ _ _ hpp h
      · have hs : stepParticle dt p = integrate dt { p with lifetime := p.lifetime + dt } := by
          simp [stepParticle, hact, hlife]
        rw [hs, hact] at hpp
        simp only [hact, hlife, Bool.not_true, if_false, Bool.false_eq_true]
        rw [particles_Update_Trail_Mesh]
        exact forall_mem_set _ _ _ _ hpp h

theorem forall_particles_foldl_updateStep (M : MathFns) (dt : ℚ) (P : Particle → Prop)
    (hP : ∀ p, P p → P (stepParticle dt p)) (idx : List Nat) :
    ∀ d : MyDriver, (∀ p ∈ d.particles, P p) →
      ∀ p ∈ (idx.foldl (updateStep M dt) d).particles, P p := by
  induction idx with
  | nil => intro d h; simpa using h
  | cons i rest ih =>
    intro d h
    rw [List.foldl_cons]
    exact ih _ (forall_particles_updateStep M dt P hP d i h)

theorem trailTracks_initialState (M : MathFns) (sphere : List TriangleMesh) :
    ∀ p ∈ (initialState M sphere).particles, TrailTracks p := by
  intro p hp
  refine ⟨trailBounded_initialState M sphere p hp, ?_⟩
  rw [particles_initialState] at hp
  rw [List.eq_of_mem_replicate hp]
  intro hc
  cases hc

theorem trailTracks_runOps (M : MathFns) (d : MyDriver) (ops : List Op)
    (h : ∀ p ∈ d.particles, TrailTracks p) :
    ∀ p ∈ (runOps M d ops).particles, TrailTracks p := by
  unfold runOps
  induction ops generalizing d with
  | nil => simpa using h
  | cons op rest ih =>
    rw [List.foldl_cons]
    apply ih
    cases op with
    | emit index time r =>
      exact forall_mem_modifyAt _ _ _ _ (trailTracks_spawnParticle M _ r) h
    | update dt =>
      exact forall_particles_foldl_updateStep M dt _ (trailTracks_stepParticle dt) _ d h

theorem particles_emit_slot_zero :
    (runOps exampleMath (initialState exampleMath []) [Op.emit 0 0 exampleDraw]).particles[0]? =
      some (spawnParticle exampleMath ⟨1 / 5, 13 / 10, 0⟩ exampleDraw {}) := by
  show (Emit_Particle exampleMath (initialState exampleMath []) 0 0 exampleDraw).particles[0]? = _
  unfold Emit_Particle
  simp only
  rw [getElem?_modifyAt_self, particles_initialState, (fields_initialState _ _).2.2.2]
  rfl

/-- C15. Implicit invariant: in every state reached from `Initialize_Particles` by
`Emit_Particle` and `Update_Particles` calls, every active particle has a non-empty trail whose
newest (back) element is the particle's current position.  Consequently every call of
`Update_Trail_Mesh` made by `Update_Particles` (iteration `i` of its loop, which runs in the
state left by iterations `0 .. i-1` and makes the call exactly when the particle of slot `i` is
active and not recycled) is made on a state whose slot `i` holds a trail of at least 2
positions, so the call rebuilds the tube and leaves the trail mesh visible: the branch for
fewer than 2 points is not taken. -/
theorem active_trail_tracks_position (M : MathFns) (sphere : List TriangleMesh)
    (ops : List Op) :
    (∀ p ∈ (runOps M (initialState M sphere) ops).particles, p.active = true →
      p.trail_positions ≠ [] ∧ p.trail_positions.getLast? = some p.position) ∧
    (∀ (dt : ℚ) (i : Nat) (p : Particle),
      ((List.range i).foldl (updateStep M dt)
        (runOps M (initialState M sphere) ops)).particles[i]? = some p →
      p.active = true → ¬ p.lifetime + dt ≥ p.max_lifetime →
      ∃ (s : MyDriver) (q : Particle),
        updateStep M dt ((List.range i).foldl (updateStep M dt)
          (runOps M (initialState M sphere) ops)) i = Update_Trail_Mesh M s i ∧
        s.particles[i]? = some q ∧ 2 ≤ q.trail_positions.length ∧
        ∀ m : OpenGLTriangleMesh, (rebuildTrail M q.trail_positions m).visible = true) := by
  have hinv := trailTracks_runOps M _ ops (trailTracks_initialState M sphere)
  have hne : ∀ p : Particle, TrailTracks p → p.active = true → p.trail_positions ≠ [] := by
    intro p hp hact hnil
    have h := hp.2 hact
    rw [hnil] at h
    cases h
  refine ⟨fun p hp hact => ⟨hne p (hinv p hp) hact, (hinv p hp).2 hact⟩, ?_⟩
  intro dt i p hp hact hlife
  have hp' : TrailTracks p :=
    forall_particles_foldl_updateStep M dt _ (trailTracks_stepParticle dt) _ _ hinv p
      (List.getElem?_mem hp)
  have hb : TrailBounded { p with lifetime := p.lifetime + dt } := hp'.1
  have hlen := length_integrate_ge dt { p with lifetime := p.lifetime + dt } hb
    (hne p hp' hact)
  generalize (List.range i).foldl (updateStep M dt) (runOps M (initialState M sphere) ops) = st
    at hp
  have hcall : ∃ s : MyDriver, updateStep M dt st i = Update_Trail_Mesh M s i ∧
      s.particles[i]? = some (integrate dt { p with lifetime := p.lifetime + dt }) := by
    unfold updateStep
    rw [hp]
    simp only [hact, hlife, Bool.not_true, if_false, Bool.false_eq_true]
    exact ⟨_, rfl, getElem?_set_self_of_some _ _ _ _ hp⟩
  obtain ⟨s, hs1, hs2⟩ := hcall
  exact ⟨s, _, hs1, hs2, hlen, fun m => (rebuildTrail_sizes M _ m hlen).2.2⟩

/-- Witness for C15: after initialisation and one spawn in slot 0, that particle is in the pool
and active, and the update iteration of slot 0 with `dt = 1/60` calls `Update_Trail_Mesh`. -/
theorem active_trail_tracks_position_witness :
    (spawnParticle exampleMath ⟨1 / 5, 13 / 10, 0⟩ exampleDraw {} ∈
        (runOps exampleMath (initialState exampleMath []) [Op.emit 0 0 exampleDraw]).particles ∧
      (spawnParticle exampleMath ⟨1 / 5, 13 / 10, 0⟩ exampleDraw {}).active = true) ∧
    (spawnParticle exampleMath ⟨1 / 5, 13 / 10, 0⟩ exampleDraw {}).trail_positions.getLast? =
      some (spawnParticle exampleMath ⟨1 / 5, 13 / 10, 0⟩ exampleDraw {}).position ∧
    ∃ (s : MyDriver) (q : Particle),
      updateStep exampleMath (1 / 60)
          (runOps exampleMath (initialState exampleMath []) [Op.emit 0 0 exampleDraw]) 0 =
        Update_Trail_Mesh exampleMath s 0 ∧
      s.particles[0]? = some q ∧ 2 ≤ q.trail_positions.length := by
  have hmem := List.getElem?_mem particles_emit_slot_zero
  have hlife : ¬ (spawnParticle exampleMath ⟨1 / 5, 13 / 10, 0⟩ exampleDraw {}).lifetime +
      1 / 60 ≥ (spawnParticle exampleMath ⟨1 / 5, 13 / 10, 0⟩ exampleDraw {}).max_lifetime := by
    norm_num [spawnParticle, exampleDraw]
  obtain ⟨h1, h2⟩ :=
    active_trail_tracks_position exampleMath [] [Op.emit 0 0 exampleDraw]
  have h3 := h2 (1 / 60) 0 (spawnParticle exampleMath ⟨1 / 5, 13 / 10, 0⟩ exampleDraw {})
  simp only [List.range_zero, List.foldl_nil] at h3
  obtain ⟨s, q, e1, e2, e3, -⟩ := h3 particles_emit_slot_zero rfl hlife
  exact ⟨⟨hmem, rfl⟩, (h1 _ hmem rfl).2, s, q, e1, e2, e3⟩

end Sparks
